import Mathlib

/-!
# Verification of the org-mode task/journal synchronization engine

This file gives a shallow embedding of the core synchronization logic of the
MCP org-mode server (`server.py`): the task finder/creator/updater, the
high-level checklist mirror, the simple line diff, and the journal store
(entry parsing, in-place update, date-ranged search), together with a model
of the approval gate (whose implementation is exercised only through its
tests in this repository).

Modelling conventions:

* Python strings are Lean `String`s; character-level work goes through
  `String.data` (a `List Char`).  Only `"\n"` line endings are modelled
  (the files this engine reads and writes use them exclusively), and
  ASCII case conversion is used, as the relevant tokens (`TODO`, `DONE`,
  custom ids, markers) are ASCII.
* The external org parser/serializer (orgmunge) is out of scope: operations
  that receive a raw org fragment in the source receive the already-parsed
  `OrgHeading` here, and the heading tree of the tasks file is the
  `OrgDoc` value threaded through each operation.  File IO is modelled by
  passing file contents in and returning the new contents; `datetime.now()`
  and `uuid.uuid4()` are explicit parameters.
* Python `dict`s of org properties are association lists with unique keys;
  `del` on a missing key is an explicit `KeyError` result, and dict
  assignment replaces in place or appends, as in CPython.
* Bounded recursions that are not structural take an explicit fuel argument
  that is always instantiated with a sufficient bound (the input length),
  so that every definition evaluates by `decide`/`rfl`.
-/

/-! ## Python-style string primitives -/

/-- Python `\s` whitespace characters (the line feed never occurs inside a
split line). -/
def isPyWs (c : Char) : Bool :=
  c = ' ' || c = '\t' || c = '\n' || c = '\r' || c = '\x0b' || c = '\x0c'

def isAsciiDigitCh (c : Char) : Bool := '0' ≤ c && c ≤ '9'

def isAsciiUpperCh (c : Char) : Bool := 'A' ≤ c && c ≤ 'Z'

def pyCharLower (c : Char) : Char :=
  if isAsciiUpperCh c then Char.ofNat (c.toNat + 32) else c

def pyCharUpper (c : Char) : Char :=
  if 'a' ≤ c && c ≤ 'z' then Char.ofNat (c.toNat - 32) else c

/-- Python `str.lower()` (ASCII). -/
def pyLower (s : String) : String := String.mk (s.data.map pyCharLower)

/-- Python `str.upper()` (ASCII). -/
def pyUpper (s : String) : String := String.mk (s.data.map pyCharUpper)

/-- Python `str.strip()`. -/
def pyStrip (s : String) : String :=
  String.mk (((s.data.dropWhile isPyWs).reverse.dropWhile isPyWs).reverse)

/-- Python `str.rstrip()`. -/
def pyRstrip (s : String) : String :=
  String.mk ((s.data.reverse.dropWhile isPyWs).reverse)

/-- Is `p` a prefix of `s` (character lists)? -/
def listStartsWithCh : List Char → List Char → Bool
  | _, [] => true
  | [], _ :: _ => false
  | c :: cs, d :: ds => c = d && listStartsWithCh cs ds

/-- Python `s.startswith(p)`. -/
def strStartsWith (s p : String) : Bool := listStartsWithCh s.data p.data

/-- Does `needle` occur as a contiguous run inside `hay`? -/
def listHasSub : List Char → List Char → Bool
  | [], needle => listStartsWithCh [] needle
  | c :: cs, needle => listStartsWithCh (c :: cs) needle || listHasSub cs needle

/-- Python `needle in hay` on strings. -/
def strHasSub (hay needle : String) : Bool := listHasSub hay.data needle.data

/-- Python `s.split(sep)` for a one-character separator, on character
lists: `""` splits to `[[]]`, and a trailing separator yields a trailing
empty piece, exactly as in CPython. -/
def splitOnCh (sep : Char) : List Char → List (List Char)
  | [] => [[]]
  | c :: cs =>
    if c = sep then [] :: splitOnCh sep cs
    else
      match splitOnCh sep cs with
      | [] => [[c]]
      | l :: ls => (c :: l) :: ls

/-- Python `s.split("\n")`. -/
def pySplitNl (s : String) : List String := (splitOnCh '\n' s.data).map String.mk

/-- `"\n".join(xs)` on character lists. -/
def joinNlCh : List (List Char) → List Char
  | [] => []
  | [x] => x
  | x :: y :: xs => x ++ '\n' :: joinNlCh (y :: xs)

/-- Python `"\n".join(xs)`. -/
def joinNl (xs : List String) : String := String.mk (joinNlCh (xs.map String.data))

/-- `sep.join(xs)` (used only for serialization; no lemmas needed). -/
def joinWith (sep : String) : List String → String
  | [] => ""
  | [x] => x
  | x :: y :: xs => x ++ sep ++ joinWith sep (y :: xs)

/-- Python `str.splitlines()` restricted to `"\n"` line endings: the empty
string has no lines, and a final newline does not produce a final empty
line. -/
def pySplitlinesCh (s : List Char) : List (List Char) :=
  if s = [] then []
  else
    let parts := splitOnCh '\n' s
    if parts.getLast? = some [] then parts.dropLast else parts

/-- Python `str.splitlines()` on strings. -/
def pySplitlines (s : String) : List String := (pySplitlinesCh s.data).map String.mk

/-- Python `s.endswith("\n")`. -/
def strEndsWithNl (s : String) : Bool := s.data.getLast? = some '\n'

/-- Python `str.replace(pat, rep)` (all occurrences), with fuel bounding the
scan; `replaceAll` always supplies the input length, which is sufficient. -/
def replaceAllGo (pat rep : List Char) : Nat → List Char → List Char
  | 0, s => s
  | _, [] => []
  | fuel + 1, c :: cs =>
    if !pat.isEmpty && listStartsWithCh (c :: cs) pat then
      rep ++ replaceAllGo pat rep fuel ((c :: cs).drop pat.length)
    else
      c :: replaceAllGo pat rep fuel cs

def replaceAll (s pat rep : String) : String :=
  String.mk (replaceAllGo pat.data rep.data s.data.length s.data)

/-- Python truthiness of an optional string (`None` and `""` are falsy). -/
def pyTruthy : Option String → Bool
  | none => false
  | some s => !s.isEmpty

/-! ## Python-style list primitives -/

/-- Python `del l[i]` / removal of the element at a known index. -/
def removeAt (idx : Nat) : List α → List α
  | [] => []
  | x :: xs =>
    match idx with
    | 0 => xs
    | n + 1 => x :: removeAt n xs

/-- Python `l.insert(i, a)` (clamps when `i` is past the end). -/
def pyInsert (idx : Nat) (a : α) : List α → List α
  | [] => [a]
  | x :: xs =>
    match idx with
    | 0 => a :: x :: xs
    | n + 1 => x :: pyInsert n a xs

/-- Python slice `xs[a:b]`. -/
def pySlice (xs : List α) (a b : Nat) : List α := (xs.take b).drop a

/-! ## Timestamps (`format_org_timestamp`, `get_current_timestamp`) -/

/-- The data `datetime.strftime` consumes here: a naive local datetime plus
its English three-letter day abbreviation. -/
structure OrgDateTime where
  year : Nat
  month : Nat
  day : Nat
  dayAbbr : String
  hour : Nat
  minute : Nat

def pad2 (n : Nat) : String := if n < 10 then "0" ++ toString n else toString n

/-- `format_org_timestamp`: `<YYYY-MM-DD Ddd HH:MM>` when active,
`[YYYY-MM-DD Ddd HH:MM]` when inactive. -/
def format_org_timestamp (dt : OrgDateTime) (active : Bool) : String :=
  let timestamp :=
    toString dt.year ++ "-" ++ pad2 dt.month ++ "-" ++ pad2 dt.day ++ " " ++
      dt.dayAbbr ++ " " ++ pad2 dt.hour ++ ":" ++ pad2 dt.minute
  if active then "<" ++ timestamp ++ ">" else "[" ++ timestamp ++ "]"

/-- `get_current_timestamp`, with the current time an explicit argument. -/
def get_current_timestamp (now : OrgDateTime) (active : Bool) : String :=
  format_org_timestamp now active

/-! ## Configuration constants (default section names, todo vocabulary) -/

def ACTIVE_SECTION : String := "Tasks"

def COMPLETED_SECTION : String := "Completed Tasks"

def HIGH_LEVEL_SECTION : String := "High Level Tasks (in order)"

/-- `ALL_STATES`: the configured todo states followed by the done states
(orgmunge defaults). -/
def ALL_STATES : List String := ["TODO", "DONE"]

/-! ## The org heading tree (orgmunge's parsed view of the tasks file) -/

/-- One org heading as orgmunge exposes it: level, optional todo keyword,
title, tags, body text (with `none` bodies read back as `""`), the
properties drawer, and child headings. -/
inductive OrgHeading where
  | mk (level : Nat) (todo : Option String) (title : String) (tags : List String)
      (body : String) (properties : List (String × String))
      (children : List OrgHeading)

def OrgHeading.level : OrgHeading → Nat
  | .mk l _ _ _ _ _ _ => l

def OrgHeading.todo : OrgHeading → Option String
  | .mk _ t _ _ _ _ _ => t

def OrgHeading.title : OrgHeading → String
  | .mk _ _ t _ _ _ _ => t

def OrgHeading.tags : OrgHeading → List String
  | .mk _ _ _ t _ _ _ => t

def OrgHeading.body : OrgHeading → String
  | .mk _ _ _ _ b _ _ => b

def OrgHeading.properties : OrgHeading → List (String × String)
  | .mk _ _ _ _ _ p _ => p

def OrgHeading.children : OrgHeading → List OrgHeading
  | .mk _ _ _ _ _ _ c => c

def OrgHeading.withChildren : OrgHeading → List OrgHeading → OrgHeading
  | .mk l t ti ta b p _, c => .mk l t ti ta b p c

def OrgHeading.withBody : OrgHeading → String → OrgHeading
  | .mk l t ti ta _ p c, b => .mk l t ti ta b p c

def OrgHeading.withProperties : OrgHeading → List (String × String) → OrgHeading
  | .mk l t ti ta b _ c, p => .mk l t ti ta b p c

/-- The root's children: the top-level headings of the tasks document. -/
abbrev OrgDoc := List OrgHeading

/-- Python dict read `props.get(key)` on the properties drawer. -/
def getProp (props : List (String × String)) (key : String) : Option String :=
  (props.find? (fun p => p.1 = key)).map (fun p => p.2)

def hasProp (props : List (String × String)) (key : String) : Bool :=
  (getProp props key).isSome

/-- Python dict assignment `props[key] = val`: replaces in place if the key
exists, appends otherwise. -/
def setProp (props : List (String × String)) (key val : String) :
    List (String × String) :=
  if hasProp props key then
    props.map (fun p => if p.1 = key then (key, val) else p)
  else props ++ [(key, val)]

/-- Python `del props[key]`: a `KeyError` when the key is absent. -/
def delProp (props : List (String × String)) (key : String) :
    Except String (List (String × String)) :=
  if hasProp props key then .ok (props.filter (fun p => p.1 ≠ key))
  else .error ("KeyError: " ++ key)

/-- `find_section`'s cleaning of a title: `title.replace("* ", "").strip()`. -/
def cleanSectionTitle (title : String) : String := pyStrip (replaceAll title "* " "")

/-- The predicate `find_section` applies to each top-level heading. -/
def isSectionNamed (name : String) (h : OrgHeading) : Bool :=
  h.level = 1 && cleanSectionTitle h.title = name

/-- `find_section`: first level-1 heading whose cleaned title equals the
name. -/
def find_section (doc : OrgDoc) (name : String) : Option OrgHeading :=
  doc.find? (isSectionNamed name)

/-- Replace the children of the first heading matching `name` (the heading
`find_section` would return), leaving every other heading untouched. -/
def mapSectionChildren (doc : OrgDoc) (name : String)
    (f : List OrgHeading → List OrgHeading) : OrgDoc :=
  match doc with
  | [] => []
  | h :: hs =>
    if isSectionNamed name h then h.withChildren (f h.children) :: hs
    else h :: mapSectionChildren hs name f

/-- Replace the body of the first heading matching `name`. -/
def mapSectionBody (doc : OrgDoc) (name : String) (f : String → String) : OrgDoc :=
  match doc with
  | [] => []
  | h :: hs =>
    if isSectionNamed name h then h.withBody (f h.body) :: hs
    else h :: mapSectionBody hs name f

mutual

/-- `heading_to_org_string`: stars, optional todo keyword, title, tag
suffix, then the body (right-stripped, when non-empty), then each child
recursively, newline-joined.  The properties drawer is not printed, as in
the source. -/
def heading_to_org_string (h : OrgHeading) : String :=
  match h with
  | .mk level todo title tags body _ children =>
    let stars := String.mk (List.replicate level '*')
    let todoStr := match todo with | some t => t ++ " " | none => ""
    let tagsStr := if tags.isEmpty then "" else " :" ++ joinWith ":" tags ++ ":"
    let headLine := stars ++ " " ++ todoStr ++ title ++ tagsStr
    let bodyLines := if body.isEmpty then [] else [pyRstrip body]
    joinNl ([headLine] ++ bodyLines ++ headingListToStrings children)

def headingListToStrings : List OrgHeading → List String
  | [] => []
  | h :: hs => heading_to_org_string h :: headingListToStrings hs

end

/-! ## Tasks -/

/-- The `Task` dataclass (named `OrgTask` here: `Task` is taken by core Lean).  In the source the optional fields hold either a
string or `None` depending on the code path (`find_task` exposes missing
properties as `None`, `parse_tasks_in_section` as `""`); here they are
`Option String` with `none` for Python `None`. -/
structure OrgTask where
  custom_id : Option String
  headline : String
  status : String
  sectionName : String
  content : String
  id : Option String
  created : Option String
  modified : Option String
  closed : Option String

/-- The filter both `parse_tasks_in_section` and `find_task` apply: direct
child at level 2 whose todo keyword is in `ALL_STATES`. -/
def is_task_heading (h : OrgHeading) : Bool :=
  h.level = 2 &&
    match h.todo with
    | some st => ALL_STATES.contains st
    | none => false

/-- Task construction used by `parse_tasks_in_section` (missing properties
read with `.get(key, "")`). -/
def mk_list_task (sectionName : String) (h : OrgHeading) : OrgTask :=
  { custom_id := some ((getProp h.properties "CUSTOM_ID").getD "")
    headline := h.title
    status := h.todo.getD ""
    sectionName := sectionName
    content := heading_to_org_string h
    id := some ((getProp h.properties "ID").getD "")
    created := some ((getProp h.properties "CREATED").getD "")
    modified := some ((getProp h.properties "MODIFIED").getD "")
    closed := some ((getProp h.properties "CLOSED").getD "") }

/-- Task construction used by `find_task` (missing properties exposed as
`None` via `_properties`). -/
def mk_found_task (sectionName : String) (h : OrgHeading) : OrgTask :=
  { custom_id := getProp h.properties "CUSTOM_ID"
    headline := h.title
    status := h.todo.getD ""
    sectionName := sectionName
    content := heading_to_org_string h
    id := getProp h.properties "ID"
    created := getProp h.properties "CREATED"
    modified := getProp h.properties "MODIFIED"
    closed := getProp h.properties "CLOSED" }

/-- `parse_tasks_in_section`: walk the direct children, skipping non-level-2
headings and unrecognized todo keywords. -/
def parse_tasks_loop (sectionName : String) : List OrgHeading → List OrgTask
  | [] => []
  | h :: hs =>
    if h.level = 2 then
      match h.todo with
      | some st =>
        if ALL_STATES.contains st then
          mk_list_task sectionName h :: parse_tasks_loop sectionName hs
        else parse_tasks_loop sectionName hs
      | none => parse_tasks_loop sectionName hs
    else parse_tasks_loop sectionName hs

def parse_tasks_in_section (sectionHeading : Option OrgHeading)
    (sectionName : String) : List OrgTask :=
  match sectionHeading with
  | none => []
  | some sec => parse_tasks_loop sectionName sec.children

/-- `list_tasks`. -/
def list_tasks (doc : OrgDoc) (sectionName : String) : List OrgTask :=
  parse_tasks_in_section (find_section doc sectionName) sectionName

/-- The three-way match `find_task` applies to one candidate heading, in
source order: exact `CUSTOM_ID`, `"task-" + identifier.strip().lower()` as
`CUSTOM_ID`, then `identifier.strip().lower()` as a substring of the
lowered headline. -/
def task_matches (identifier : String) (h : OrgHeading) : Bool :=
  if getProp h.properties "CUSTOM_ID" == some identifier then true
  else if getProp h.properties "CUSTOM_ID" ==
      some ("task-" ++ pyLower (pyStrip identifier)) then true
  else if strHasSub (pyLower h.title) (pyLower (pyStrip identifier)) then true
  else false

/-- What `find_task` yields: the built `OrgTask`, the matched heading, the
section it was found in, and its index among that section's children (the
position `update_task` recovers with `children.index(old_heading)`). -/
structure FindResult where
  task : OrgTask
  heading : OrgHeading
  sectionName : String
  childIdx : Nat

/-- The inner loop of `find_task` over one section's children. -/
def find_in_children (identifier sectionName : String) (idx : Nat) :
    List OrgHeading → Option FindResult
  | [] => none
  | h :: hs =>
    if h.level = 2 then
      match h.todo with
      | some st =>
        if ALL_STATES.contains st then
          if task_matches identifier h then
            some ⟨mk_found_task sectionName h, h, sectionName, idx⟩
          else find_in_children identifier sectionName (idx + 1) hs
        else find_in_children identifier sectionName (idx + 1) hs
      | none => find_in_children identifier sectionName (idx + 1) hs
    else find_in_children identifier sectionName (idx + 1) hs

/-- The outer loop of `find_task` over the requested section names. -/
def find_task_sections (doc : OrgDoc) (identifier : String) :
    List String → Option FindResult
  | [] => none
  | name :: rest =>
    match find_section doc name with
    | none => find_task_sections doc identifier rest
    | some sec =>
      match find_in_children identifier name 0 sec.children with
      | some r => some r
      | none => find_task_sections doc identifier rest

/-- `find_task`: searches the given section, or Active then Completed when
none is given; `none` models the `ValueError` raised when nothing matches. -/
def find_task (doc : OrgDoc) (identifier : String) (sect : Option String) :
    Option FindResult :=
  match sect with
  | some s => find_task_sections doc identifier [s]
  | none => find_task_sections doc identifier [ACTIVE_SECTION, COMPLETED_SECTION]

/-- `search_tasks`: scan Active then Completed, keep tasks whose lowered
headline or content contains the lowered query. -/
def search_tasks (doc : OrgDoc) (query : String) : List OrgTask :=
  let all_tasks := list_tasks doc ACTIVE_SECTION ++ list_tasks doc COMPLETED_SECTION
  all_tasks.filter (fun t =>
    strHasSub (pyLower t.headline) (pyLower query) ||
    strHasSub (pyLower t.content) (pyLower query))

/-! ## High Level Tasks checklist -/

/-- `extract_task_description`, step 1: drop a leading `"TODO "` or
`"DONE "` prefix (first match wins, as in the source loop). -/
def strip_status_keyword (text : String) : String :=
  if strStartsWith text "TODO " then String.mk (text.data.drop 5)
  else if strStartsWith text "DONE " then String.mk (text.data.drop 5)
  else text

/-- `extract_task_description`, step 2: `re.sub(r"^([A-Z]+-\d+)\s+", "", text)` —
a leading run of capitals, a dash, a run of digits, then at least one
whitespace character, all removed (the regex is anchored, so at most the
one leading occurrence is removed). -/
def drop_ticket_token (text : String) : String :=
  let s := text.data
  let up := s.takeWhile isAsciiUpperCh
  if up.isEmpty then text
  else
    match s.dropWhile isAsciiUpperCh with
    | '-' :: r2 =>
      let ds := r2.takeWhile isAsciiDigitCh
      if ds.isEmpty then text
      else
        let r3 := r2.dropWhile isAsciiDigitCh
        if (r3.takeWhile isPyWs).isEmpty then text
        else String.mk (r3.dropWhile isPyWs)
    | _ => text

/-- `extract_task_description`: status prefix, ticket token, then `strip()`. -/
def extract_task_description (headline_text : String) : String :=
  pyStrip (drop_ticket_token (strip_status_keyword headline_text))

/-- `add_high_level_task`: append an unchecked checkbox line to the High
Level section body; a no-op when that section does not exist. -/
def add_high_level_task (doc : OrgDoc) (description : String) : OrgDoc :=
  match find_section doc HIGH_LEVEL_SECTION with
  | none => doc
  | some _ =>
    mapSectionBody doc HIGH_LEVEL_SECTION (fun body =>
      let checkbox_line := "- [ ] " ++ description
      if !(pyStrip body).isEmpty then pyRstrip body ++ "\n" ++ checkbox_line ++ "\n"
      else checkbox_line ++ "\n")

def checkbox_marker (completed : Bool) : String := if completed then "[X]" else "[ ]"

/-- The line loop of `update_high_level_task`: the first line containing
`"- [ ] description"` or `"- [X] description"` as a substring is replaced
wholesale by `"- marker description"`; later lines are left alone (the
source breaks out of the loop). -/
def update_checklist_lines (description : String) (completed : Bool) :
    List String → List String
  | [] => []
  | line :: rest =>
    if strHasSub line ("- " ++ checkbox_marker (!completed) ++ " " ++ description) ||
        strHasSub line ("- " ++ checkbox_marker completed ++ " " ++ description) then
      ("- " ++ checkbox_marker completed ++ " " ++ description) :: rest
    else line :: update_checklist_lines description completed rest

/-- `update_high_level_task`: split the High Level section body on
newlines, update the first matching checkbox, rejoin; a no-op when the
section does not exist. -/
def update_high_level_task (doc : OrgDoc) (description : String)
    (completed : Bool) : OrgDoc :=
  match find_section doc HIGH_LEVEL_SECTION with
  | none => doc
  | some _ =>
    mapSectionBody doc HIGH_LEVEL_SECTION (fun body =>
      joinNl (update_checklist_lines description completed (pySplitNl body)))

/-! ## `create_task` and `update_task` -/

/-- `create_task`.  The raw entry arrives already parsed as `cand`
(`parse_task_entry` belongs to the external parser); `fresh_uuid` is the
`uuid.uuid4()` draw and `now` the current time.  On success the new
section children, the generated properties, and the new document are all
reflected in the returned document; when the section is missing the
function fails before producing any new document (the file is never
written). -/
def create_task (doc : OrgDoc) (section_name : String) (cand : OrgHeading)
    (fresh_uuid : String) (now : OrgDateTime) :
    Except String (String × String × OrgDoc) :=
  match find_section doc section_name with
  | none => .error ("Section not found: " ++ section_name)
  | some _ =>
    let props0 := cand.properties
    let props1 :=
      if hasProp props0 "ID" then props0
      else setProp props0 "ID" (pyUpper fresh_uuid)
    let props2 :=
      if hasProp props1 "CREATED" then props1
      else setProp props1 "CREATED" (get_current_timestamp now true)
    let new_task := cand.withProperties props2
    let doc1 := mapSectionChildren doc section_name (fun cs => cs ++ [new_task])
    let doc2 :=
      if section_name = ACTIVE_SECTION then
        add_high_level_task doc1 (extract_task_description cand.title)
      else doc1
    .ok (section_name, heading_to_org_string new_task, doc2)

/-- The property block of `update_task`: stamp `MODIFIED`, carry forward
`CREATED` and `CLOSED` when the candidate omits them and the old value is
truthy, then apply the transition rule — old `TODO` to new `DONE` stamps
`CLOSED` (active); old non-`TODO` to new `TODO` executes
`del properties["CLOSED"]`, which raises `KeyError` when the key is
absent, exactly as the source line does. -/
def updated_task_properties (oldTask : OrgTask) (cand : OrgHeading)
    (now : OrgDateTime) : Except String (List (String × String)) :=
  let p0 := setProp cand.properties "MODIFIED" (get_current_timestamp now false)
  let p1 :=
    if pyTruthy oldTask.created && !hasProp p0 "CREATED" then
      setProp p0 "CREATED" (oldTask.created.getD "")
    else p0
  let p2 :=
    if pyTruthy oldTask.closed && !hasProp p1 "CLOSED" then
      setProp p1 "CLOSED" (oldTask.closed.getD "")
    else p1
  if oldTask.status = "TODO" then
    if cand.todo = some "DONE" then
      .ok (setProp p2 "CLOSED" (get_current_timestamp now true))
    else .ok p2
  else
    if cand.todo = some "TODO" then delProp p2 "CLOSED"
    else .ok p2

structure UpdateResult where
  oldTask : OrgTask
  newHeading : OrgHeading
  newContent : String
  moved : Bool
  oldSection : String
  newSection : String
  doc : OrgDoc

/-- `update_task`: locate via `find_task`, rebuild the properties, pick the
target section from the new status (`DONE` goes to Completed, everything
else to Active), then either reinsert at the old ordinal position (same
section) or remove-and-append (different section), updating the checklist
only when the section changed. -/
def update_task (doc : OrgDoc) (identifier : String) (cand : OrgHeading)
    (now : OrgDateTime) : Except String UpdateResult :=
  match find_task doc identifier none with
  | none => .error ("Could not find task " ++ identifier)
  | some fr =>
    let old_section_name := fr.sectionName
    let new_status := cand.todo
    match updated_task_properties fr.task cand now with
    | .error e => .error e
    | .ok props =>
      let new_task := cand.withProperties props
      let target_section_name :=
        if new_status = some "DONE" then COMPLETED_SECTION else ACTIVE_SECTION
      match find_section doc target_section_name with
      | none => .error "Target section not found"
      | some _ =>
        let doc1 :=
          if old_section_name = target_section_name then
            mapSectionChildren doc old_section_name (fun children =>
              let removed := removeAt fr.childIdx children
              let appended := removed ++ [new_task]
              if appended.length > 1 then
                pyInsert fr.childIdx (appended.getLastD new_task) appended.dropLast
              else appended)
          else
            mapSectionChildren
              (mapSectionChildren doc old_section_name (removeAt fr.childIdx))
              target_section_name (fun cs => cs ++ [new_task])
        let was_moved := old_section_name ≠ target_section_name
        let doc2 :=
          if was_moved then
            update_high_level_task doc1 (extract_task_description cand.title)
              (new_status = some "DONE")
          else doc1
        .ok { oldTask := fr.task
              newHeading := new_task
              newContent := heading_to_org_string new_task
              moved := old_section_name ≠ target_section_name
              oldSection := old_section_name
              newSection := target_section_name
              doc := doc2 }

/-! ## Diff engine (`format_simple_diff`) -/

inductive DiffTag where
  | equal
  | replace
  | delete
  | insert
deriving DecidableEq

/-- One `difflib.SequenceMatcher.get_opcodes()` entry. -/
structure DiffOpcode where
  tag : DiffTag
  i1 : Nat
  i2 : Nat
  j1 : Nat
  j2 : Nat

/-- The per-opcode rendering of the source loop: replace regions emit all
their removals, then all their insertions. -/
def render_opcode (old_lines new_lines : List String) (op : DiffOpcode) :
    List String :=
  match op.tag with
  | .equal => []
  | .replace =>
    (pySlice old_lines op.i1 op.i2).map (fun l => "− " ++ l) ++
      (pySlice new_lines op.j1 op.j2).map (fun l => "+ " ++ l)
  | .delete => (pySlice old_lines op.i1 op.i2).map (fun l => "− " ++ l)
  | .insert => (pySlice new_lines op.j1 op.j2).map (fun l => "+ " ++ l)

def render_opcodes (old_lines new_lines : List String) :
    List DiffOpcode → List String
  | [] => []
  | op :: rest =>
    render_opcode old_lines new_lines op ++ render_opcodes old_lines new_lines rest

/-- `format_simple_diff`.  The sequence comparison itself lives in the
standard library (`difflib.SequenceMatcher`), outside this repository, so
the opcode producer is a parameter; everything else follows the source:
equal line sequences short-circuit to `"(no changes)"`, otherwise the
opcodes are rendered and an empty rendering also yields `"(no changes)"`. -/
def format_simple_diff (matcher : List String → List String → List DiffOpcode)
    (old_content new_content : String) : String :=
  let old_lines := pySplitlines old_content
  let new_lines := pySplitlines new_content
  if old_lines = new_lines then "(no changes)"
  else
    let diff_lines := render_opcodes old_lines new_lines (matcher old_lines new_lines)
    if diff_lines.isEmpty then "(no changes)" else joinNl diff_lines

/-! ## Journal store -/

/-- The `JournalEntry` dataclass. -/
structure JournalEntry where
  time : String
  headline : String
  tags : List String
  content : String
  line_number : Nat
  file_date : String
deriving DecidableEq

/-- `JournalEntry.to_org`: `** HH:MM headline :tags:`, then the
right-stripped content when it has any non-whitespace. -/
def JournalEntry.to_org (e : JournalEntry) : String :=
  let tags_str := if e.tags.isEmpty then "" else " :" ++ joinWith ":" e.tags ++ ":"
  let first := "** " ++ e.time ++ " " ++ e.headline ++ tags_str
  if !(pyStrip e.content).isEmpty then first ++ "\n" ++ pyRstrip e.content
  else first

/-- The identity carried by the frame theorems: everything but the line
number (which legitimately shifts for later entries). -/
def JournalEntry.view (e : JournalEntry) : String × String × List String × String :=
  (e.time, e.headline, e.tags, e.content)

/-- The tag-suffix alternative of the entry regex:
`\s+:([^:]+(?::[^:]+)*):` anchored at the end of the line — at least one
whitespace character, a colon, colon-separated non-empty colon-free
chunks, a final colon ending the line. -/
def tag_suffix_parse (suf : List Char) : Option (List String) :=
  if (suf.takeWhile isPyWs).isEmpty then none
  else
    match suf.dropWhile isPyWs with
    | ':' :: more =>
      match more.getLast? with
      | some ':' =>
        let mid := more.dropLast
        if mid.isEmpty then none
        else
          let chunks := splitOnCh ':' mid
          if chunks.any (fun c => c.isEmpty) then none
          else some (chunks.map String.mk)
      | _ => none
    | _ => none

/-- The lazy `(.+?)(?:\s+:…:)?$` split: scanning left to right, the
headline takes the least number of characters (at least one) after which
the remaining suffix is a complete tag group; if no suffix ever is, the
whole rest is the headline and there are no tags. -/
def split_head_tags (acc : List Char) : List Char → List Char × List String
  | [] => (acc.reverse, [])
  | c :: cs =>
    match tag_suffix_parse cs with
    | some tags => ((c :: acc).reverse, tags)
    | none => split_head_tags (c :: acc) cs

/-- The entry-heading regex of `parse_journal_entry`:
`^\*\*\s+(\d{2}:\d{2})\s+(.+?)(?:\s+:([^:]+(?::[^:]+)*):)?$`.
Returns the time, the stripped headline, and the tag list.  The greedy
whitespace runs are deterministic except when nothing but whitespace
follows the time, in which case the regex backtracks one whitespace
character into the lazy group (giving an empty stripped headline). -/
def parse_entry_heading (line : String) : Option (String × String × List String) :=
  match line.data with
  | '*' :: '*' :: r0 =>
    if (r0.takeWhile isPyWs).isEmpty then none
    else
      match r0.dropWhile isPyWs with
      | d1 :: d2 :: ':' :: d3 :: d4 :: r2 =>
        if isAsciiDigitCh d1 && isAsciiDigitCh d2 &&
            isAsciiDigitCh d3 && isAsciiDigitCh d4 then
          let ws2 := r2.takeWhile isPyWs
          let r3 := r2.dropWhile isPyWs
          if ws2.isEmpty then none
          else
            let time_str := String.mk [d1, d2, ':', d3, d4]
            if r3.isEmpty then
              if ws2.length ≥ 2 then some (time_str, "", []) else none
            else
              let split := split_head_tags [] r3
              some (time_str, pyStrip (String.mk split.1), split.2)
        else none
      | _ => none
  | _ => none

/-- A line at which an entry's body stops: the start of another entry or a
date heading (`startswith("** ")` / `startswith("* ")`). -/
def isJournalBoundary (l : String) : Bool :=
  strStartsWith l "** " || strStartsWith l "* "

/-- The scan of `parse_journal_entries`: lines starting with `"** "` are
tried against the entry regex; on success the body runs to the next
boundary and the scan resumes there; on failure (and on any other line)
the scan moves one line on.  `fuel` bounds the recursion and is always
instantiated with the number of lines, which suffices because every step
consumes at least one line. -/
def scan_journal_lines (file_date : String) :
    Nat → Nat → List String → List JournalEntry
  | 0, _, _ => []
  | _ + 1, _, [] => []
  | fuel + 1, i, l :: rest =>
    if strStartsWith l "** " then
      match parse_entry_heading l with
      | some (t, h, tg) =>
        let content_lines := rest.takeWhile (fun x => !isJournalBoundary x)
        let rest2 := rest.dropWhile (fun x => !isJournalBoundary x)
        { time := t, headline := h, tags := tg, content := joinNl content_lines,
          line_number := i, file_date := file_date } ::
          scan_journal_lines file_date fuel (i + 1 + content_lines.length) rest2
      | none => scan_journal_lines file_date fuel (i + 1) rest
    else scan_journal_lines file_date fuel (i + 1) rest

/-- `parse_journal_entries`, applied to the file's content (the source
reads the file and derives `file_date` from the file name). -/
def parse_journal_entries (file_date : String) (content : String) :
    List JournalEntry :=
  let lines := pySplitNl content
  scan_journal_lines file_date lines.length 0 lines

def entry_views (file_date : String) (content : String) :
    List (String × String × List String × String) :=
  (parse_journal_entries file_date content).map JournalEntry.view

/-- The views of the entries a scan of the given lines produces (with the
canonical fuel and a zero start index; the frame lemmas show fuel and
start index are irrelevant to the views). -/
def scan_views (file_date : String) (ls : List String) :
    List (String × String × List String × String) :=
  (scan_journal_lines file_date ls.length 0 ls).map JournalEntry.view

/-- `write_file`'s normalization: the written content always ends with a
newline. -/
def write_file_content (content : String) : String :=
  if strEndsWithNl content then content else content ++ "\n"

/-- `update_journal_entry`, on the file's content: re-parse the entry at
`line_number` (an out-of-range index is the Python `IndexError`, an
unparsable line the `ValueError`), recompute the end boundary exactly as
parsing does, splice the serialized new entry into that line range, and
rewrite (the backup is IO and not modelled).  Returns the old entry, the
new entry, and the new file content. -/
def update_journal_entry (file_content : String) (line_number : Nat)
    (time_str headline content : String) (tags : List String)
    (file_date : String) :
    Except String (JournalEntry × JournalEntry × String) :=
  let lines := pySplitNl file_content
  match lines[line_number]? with
  | none => .error "IndexError: list index out of range"
  | some l =>
    match parse_entry_heading l with
    | none => .error ("Invalid journal entry format at line " ++ toString line_number)
    | some (t, h, tg) =>
      let after := lines.drop (line_number + 1)
      let content_lines := after.takeWhile (fun x => !isJournalBoundary x)
      let old_entry : JournalEntry :=
        { time := t, headline := h, tags := tg, content := joinNl content_lines,
          line_number := line_number, file_date := file_date }
      let entry_end := line_number + 1 + content_lines.length
      let new_entry : JournalEntry :=
        { time := time_str, headline := headline, tags := tags, content := content,
          line_number := line_number, file_date := file_date }
      let new_entry_lines := pySplitNl new_entry.to_org
      let new_lines := lines.take line_number ++ new_entry_lines ++ lines.drop entry_end
      .ok (old_entry, new_entry, write_file_content (joinNl new_lines))

/-- One day's worth of `search_journal`: parse the day's file (when it
exists) and keep the entries whose lowered `headline + " " + content`
contains the lowered query. -/
def search_journal_day (fs : Int → Option String) (day_name : Int → String)
    (query_lower : String) (d : Int) : List JournalEntry :=
  match fs d with
  | none => []
  | some content =>
    (parse_journal_entries (day_name d) content).filter (fun e =>
      strHasSub (pyLower (e.headline ++ " " ++ e.content)) query_lower)

/-- The `for i in range(days_back)` loop of `search_journal`, accumulating
matches in day order (`i = 0` is today). -/
def search_journal_go (fs : Int → Option String) (day_name : Int → String)
    (today : Int) (query_lower : String) : Nat → Nat → List JournalEntry
  | _, 0 => []
  | i, k + 1 =>
    search_journal_day fs day_name query_lower (today - i) ++
      search_journal_go fs day_name today query_lower (i + 1) k

/-- `search_journal`: days are calendar days as epoch offsets, `fs` gives a
day's file content when the file exists (it models `get_journal_path` plus
the existence check), and `day_name` the `YYYYMMDD` name of the file. -/
def search_journal (fs : Int → Option String) (day_name : Int → String)
    (today : Int) (query : String) (days_back : Nat) : List JournalEntry :=
  search_journal_go fs day_name today (pyLower query) 0 days_back

/-! ## Approval gate

The `request_ediff_approval` / `is_ediff_approval_enabled` /
`get_emacsclient_path` implementations are exercised by `tests/test_ediff.py`
but are not present in the sources available here, so they are modelled
from the specification (§4.6, §6). -/

/-- Modelled from the spec: the configuration surface of the approval
gate — the `EMACS_EDIFF_APPROVAL` flag, whether the configured reviewer
path exists, and what a search-path lookup would return. -/
structure ApprovalConfig where
  approvalFlag : Option String
  configuredPath : Option String
  configuredPathExists : Bool
  searchPathResult : Option String

/-- Modelled from the spec: the approval-enabled flag accepts the common
truthy spellings `true`/`1`/`yes`, case-insensitively. -/
def approval_flag_truthy : Option String → Bool
  | none => false
  | some v => ["true", "1", "yes"].contains (pyLower v)

/-- Modelled from the spec: the reviewer executable is the configured path
when it exists, otherwise whatever the search path yields. -/
def get_emacsclient_path (cfg : ApprovalConfig) : Option String :=
  match cfg.configuredPath, cfg.configuredPathExists with
  | some p, true => some p
  | _, _ => cfg.searchPathResult

/-- Modelled from the spec: enabled iff the flag is truthy and the reviewer
executable can be located. -/
def is_ediff_approval_enabled (cfg : ApprovalConfig) : Bool :=
  approval_flag_truthy cfg.approvalFlag && (get_emacsclient_path cfg).isSome

/-- Modelled from the spec: what the blocking reviewer subprocess can do —
exit normally with some stdout (with the new-file's on-disk content at that
moment), time out, or fail to execute. -/
inductive ReviewOutcome where
  | completed (stdout : String) (editedNewFile : String)
  | timedOut
  | execFailed

/-- Modelled from the spec: the result of one approval request, recording
whether a subprocess was invoked at all. -/
structure ApprovalResult where
  approved : Bool
  content : String
  invokedSubprocess : Bool

/-- Modelled from the spec: `request_ediff_approval(old, new, ctx)`.  When
the gate is off or the reviewer cannot be located, immediately approve the
proposed content with no subprocess.  Otherwise run the reviewer: a normal
exit printing the JSON string `"approved"` approves with the (possibly
hand-edited) new-file content, `"rejected"` rejects with the original
proposal, malformed stdout is the execution-failure case and fails open,
a timeout rejects, and an execution failure fails open. -/
def request_ediff_approval (cfg : ApprovalConfig) (review : ReviewOutcome)
    (old_content new_content context_name : String) : ApprovalResult :=
  if is_ediff_approval_enabled cfg then
    match review with
    | .completed stdout edited =>
      if stdout = "\"approved\"" then ⟨true, edited, true⟩
      else if stdout = "\"rejected\"" then ⟨false, new_content, true⟩
      else ⟨true, new_content, true⟩
    | .timedOut => ⟨false, new_content, true⟩
    | .execFailed => ⟨true, new_content, true⟩
  else ⟨true, new_content, false⟩

/-! ## Declarative first-match view of `find_task` (for the search-order claim) -/

/-- The candidate stream of `find_task`: for each requested section in
order, the task headings among its direct children, each with its child
index.  This is the order in which `find_task` examines candidates. -/
def task_candidates (doc : OrgDoc) (sections : List String) :
    List (String × Nat × OrgHeading) :=
  (sections.map (fun name =>
    match find_section doc name with
    | none => []
    | some sec =>
      ((List.enumFrom 0 sec.children).filter (fun p => is_task_heading p.2)).map
        (fun p => (name, p.1, p.2)))).flatten

/-- The first candidate, in document scan order, that matches the
identifier under any of the three criteria — the declarative
characterization `find_task` is proved equal to. -/
def find_task_firstmatch (doc : OrgDoc) (identifier : String)
    (sections : List String) : Option FindResult :=
  ((task_candidates doc sections).find? (fun c => task_matches identifier c.2.2)).map
    (fun c => ⟨mk_found_task c.1 c.2.2, c.2.2, c.1, c.2.1⟩)

/-- Follows the spec's words (not the source): the text of a checklist
line after its checkbox marker, defined only for lines of the shapes
`"- [ ] text"` and `"- [X] text"`. -/
def spec_checklist_line_text (line : String) : Option String :=
  if strStartsWith line "- [ ] " then some (String.mk (line.data.drop 6))
  else if strStartsWith line "- [X] " then some (String.mk (line.data.drop 6))
  else none

/-! ## Concrete instances used by counterexamples and witnesses -/

def c_now : OrgDateTime := ⟨2025, 1, 2, "Thu", 3, 4⟩

def c1_task_a : OrgHeading := .mk 2 (some "TODO") "alpha x thing" [] "" [] []

def c1_task_b : OrgHeading := .mk 2 (some "TODO") "beta" [] "" [("CUSTOM_ID", "x")] []

def c1_doc : OrgDoc :=
  [.mk 1 none "Tasks" [] "" [] [c1_task_a, c1_task_b],
   .mk 1 none "Completed Tasks" [] "" [] []]

def c2_old : OrgHeading :=
  .mk 2 (some "DONE") "Task done without closed" [] ""
    [("CUSTOM_ID", "task-done-no-closed")] []

def c2_doc : OrgDoc :=
  [.mk 1 none "Tasks" [] "" [] [c2_old],
   .mk 1 none "Completed Tasks" [] "" [] []]

def c2_cand : OrgHeading :=
  .mk 2 (some "TODO") "Task done without closed" [] ""
    [("CUSTOM_ID", "task-done-no-closed")] []

def c3_doc : OrgDoc :=
  [.mk 1 none "Tasks" [] "" []
     [.mk 2 (some "TODO") "T0" [] "" [] [],
      .mk 2 (some "TODO") "T1" [] "" [("CUSTOM_ID", "task-t1")] [],
      .mk 2 (some "TODO") "T2" [] "" [] []],
   .mk 1 none "Completed Tasks" [] "" [] [],
   .mk 1 none "High Level Tasks (in order)" [] "- [ ] T1\n" [] []]

def c3_cand : OrgHeading :=
  .mk 2 (some "TODO") "T1 updated" [] "" [("CUSTOM_ID", "task-t1")] []

def c3_cand_done : OrgHeading :=
  .mk 2 (some "DONE") "T1 updated" [] "" [("CUSTOM_ID", "task-t1")] []

def dummy_update_result : UpdateResult :=
  ⟨⟨none, "", "", "", "", none, none, none, none⟩, .mk 0 none "" [] "" [] [],
    "", false, "", "", []⟩

def c3_res : UpdateResult :=
  match update_task c3_doc "task-t1" c3_cand c_now with
  | .ok r => r
  | .error _ => dummy_update_result

def c3_res_moved : UpdateResult :=
  match update_task c3_doc "task-t1" c3_cand_done c_now with
  | .ok r => r
  | .error _ => dummy_update_result

def c5_bad_content : String :=
  "* 2025-01-01\n\n** 10:00 First\nbody1\n\n** 11:00 Second\nbody2"

def c5_good_content : String :=
  "* 2025-01-01\n\n** 10:00 First\nbody1\n\n** 11:00 Second\nbody2\n"

def c6_doc : OrgDoc :=
  [.mk 1 none "Tasks" [] "" [] [.mk 2 (some "TODO") "Existing" [] "" [] []],
   .mk 1 none "Completed Tasks" [] "" [] [],
   .mk 1 none "High Level Tasks (in order)" [] "" [] []]

def c6_cand : OrgHeading := .mk 2 (some "TODO") "GH-9 New thing" [] "" [] []

def c10_doc : OrgDoc :=
  [.mk 1 none "Tasks" [] "" []
     [.mk 2 (some "TODO") "visible task" [] "" [] [],
      .mk 3 (some "TODO") "wrong level" [] "" [] [],
      .mk 2 (some "WAITING") "unknown keyword" [] "" [] [],
      .mk 2 none "no keyword" [] "" [] []],
   .mk 1 none "Completed Tasks" [] "" [] []]

/-- The condition under which `update_high_level_task` rewrites a line:
either pattern occurs as a substring of the line. -/
def checklist_line_hits (description : String) (completed : Bool) (line : String) :
    Bool :=
  strHasSub line ("- " ++ checkbox_marker (!completed) ++ " " ++ description) ||
    strHasSub line ("- " ++ checkbox_marker completed ++ " " ++ description)

def dummy_find_result : FindResult :=
  ⟨⟨none, "", "", "", "", none, none, none, none⟩, .mk 0 none "" [] "" [] [], "", 0⟩

def c10_fr : FindResult :=
  match find_task c10_doc "visible task" none with
  | some r => r
  | none => dummy_find_result

/-! # Theorems -/

/-! ## Shared list and string lemmas -/

lemma splitOnCh_cons_sep (sep : Char) (cs : List Char) :
    splitOnCh sep (sep :: cs) = [] :: splitOnCh sep cs := by
  simp [splitOnCh]

lemma splitOnCh_ne_nil (sep : Char) (s : List Char) : splitOnCh sep s ≠ [] := by
  induction s with
  | nil => simp [splitOnCh]
  | cons c cs ih =>
    simp only [splitOnCh]
    split
    · simp
    · cases h : splitOnCh sep cs with
      | nil => exact absurd h ih
      | cons l ls => simp

lemma splitOnCh_cons_ne (sep c : Char) (cs : List Char) (h : c ≠ sep)
    (l : List Char) (ls : List (List Char)) (h2 : splitOnCh sep cs = l :: ls) :
    splitOnCh sep (c :: cs) = (c :: l) :: ls := by
  simp only [splitOnCh, if_neg h, h2]

lemma splitOnCh_cons (sep c : Char) (cs : List Char) (h : c ≠ sep) :
    ∃ l ls, splitOnCh sep cs = l :: ls ∧ splitOnCh sep (c :: cs) = (c :: l) :: ls := by
  cases h2 : splitOnCh sep cs with
  | nil => exact absurd h2 (splitOnCh_ne_nil sep cs)
  | cons l ls => exact ⟨l, ls, rfl, splitOnCh_cons_ne sep c cs h l ls h2⟩

lemma splitOnCh_append_sep (sep : Char) (s : List Char) :
    splitOnCh sep (s ++ [sep]) = splitOnCh sep s ++ [[]] := by
  induction s with
  | nil => simp [splitOnCh]
  | cons c cs ih =>
    by_cases h : c = sep
    · subst h
      rw [List.cons_append, splitOnCh_cons_sep, splitOnCh_cons_sep, ih,
        List.cons_append]
    · obtain ⟨l, ls, h2, h3⟩ := splitOnCh_cons sep c cs h
      rw [h2] at ih
      rw [List.cons_append, splitOnCh_cons_ne sep c (cs ++ [sep]) h l (ls ++ [[]]) (by
        rw [ih]; rfl), h3, List.cons_append]

lemma splitOnCh_getLast_ne (sep : Char) (s : List Char) (h0 : s ≠ [])
    (h1 : s.getLast? ≠ some sep) : (splitOnCh sep s).getLast? ≠ some [] := by
  induction s with
  | nil => exact absurd rfl h0
  | cons c cs ih =>
    cases cs with
    | nil =>
      have hc : c ≠ sep := by
        simpa [List.getLast?] using h1
      obtain ⟨l, ls, h2, h3⟩ := splitOnCh_cons sep c [] hc
      simp [splitOnCh] at h2
      rw [h3, h2.1, h2.2]
      simp [List.getLast?]
    | cons d ds =>
      have hlast : (d :: ds).getLast? ≠ some sep := by
        rwa [List.getLast?_cons_cons] at h1
      have ih2 := ih (by simp) hlast
      by_cases h : c = sep
      · rw [h, splitOnCh_cons_sep]
        cases h2 : splitOnCh sep (d :: ds) with
        | nil => exact absurd h2 (splitOnCh_ne_nil _ _)
        | cons l ls =>
          rw [List.getLast?_cons_cons]
          rw [h2] at ih2
          exact ih2
      · obtain ⟨l, ls, h2, h3⟩ := splitOnCh_cons sep c (d :: ds) h
        rw [h3]
        rw [h2] at ih2
        cases ls with
        | nil => simp [List.getLast?]
        | cons l2 ls2 =>
          rw [List.getLast?_cons_cons]
          rw [List.getLast?_cons_cons] at ih2
          exact ih2

lemma getLast_eq_some_decomp {α : Type} (s : List α) (a : α)
    (h : s.getLast? = some a) : ∃ t, s = t ++ [a] := by
  induction s with
  | nil => simp [List.getLast?] at h
  | cons c cs ih =>
    cases cs with
    | nil =>
      simp [List.getLast?] at h
      exact ⟨[], by rw [h]; rfl⟩
    | cons d ds =>
      rw [List.getLast?_cons_cons] at h
      obtain ⟨t, ht⟩ := ih h
      exact ⟨c :: t, by rw [List.cons_append, ht]⟩

lemma splitOnCh_getLast_sep (sep : Char) (s : List Char)
    (h1 : s.getLast? = some sep) : (splitOnCh sep s).getLast? = some [] := by
  obtain ⟨t, ht⟩ := getLast_eq_some_decomp s sep h1
  subst ht
  rw [splitOnCh_append_sep]
  exact List.getLast?_concat _

lemma strData_ne_nil {x : String} (h : x ≠ "") : x.data ≠ [] := by
  intro hdata
  apply h
  have : x = String.mk x.data := rfl
  rw [this, hdata]

lemma pySplitlinesCh_append_nl (s : List Char) (h0 : s ≠ [])
    (h1 : s.getLast? ≠ some '\n') :
    pySplitlinesCh (s ++ ['\n']) = pySplitlinesCh s := by
  unfold pySplitlinesCh
  rw [if_neg (by simp), if_neg h0, splitOnCh_append_sep]
  rw [if_pos (List.getLast?_concat _), if_neg (splitOnCh_getLast_ne '\n' s h0 h1)]
  exact List.dropLast_concat

lemma pySplitlines_append_nl (x : String) (h0 : x ≠ "")
    (h1 : strEndsWithNl x = false) :
    pySplitlines (x ++ "\n") = pySplitlines x := by
  have hdata : (x ++ "\n").data = x.data ++ ['\n'] := by
    simp [String.data_append]
  have hlast : x.data.getLast? ≠ some '\n' := by
    simpa [strEndsWithNl, decide_eq_false_iff_not] using h1
  unfold pySplitlines
  rw [hdata, pySplitlinesCh_append_nl x.data (strData_ne_nil h0) hlast]

lemma render_opcodes_append (old_lines new_lines : List String)
    (as bs : List DiffOpcode) :
    render_opcodes old_lines new_lines (as ++ bs) =
      render_opcodes old_lines new_lines as ++ render_opcodes old_lines new_lines bs := by
  induction as with
  | nil => simp [render_opcodes]
  | cons op rest ih => simp [render_opcodes, ih]

/-! ## C7: the diff engine -/

/-- C7: `diff(x, x)` is `"(no changes)"`; more generally any two texts with
equal line sequences diff to `"(no changes)"`, which covers a
trailing-newline-only difference (for a text not already ending in a
newline, where the difference vanishes at the line level); and a replace
opcode renders all its removal lines immediately followed by all its
insertion lines, wherever it sits in the opcode stream.  The opcode
producer (`difflib.SequenceMatcher`) is external and universally
quantified. -/
theorem c7_diff_no_changes_and_replace_order
    (m : List String → List String → List DiffOpcode) :
    (∀ x, format_simple_diff m x x = "(no changes)") ∧
    (∀ x y, pySplitlines x = pySplitlines y →
      format_simple_diff m x y = "(no changes)") ∧
    (∀ x, x ≠ "" → strEndsWithNl x = false →
      format_simple_diff m x (x ++ "\n") = "(no changes)" ∧
      format_simple_diff m (x ++ "\n") x = "(no changes)") ∧
    (∀ old_lines new_lines pre post op, op.tag = DiffTag.replace →
      render_opcodes old_lines new_lines (pre ++ op :: post) =
        render_opcodes old_lines new_lines pre ++
          ((pySlice old_lines op.i1 op.i2).map (fun l => "− " ++ l) ++
            (pySlice new_lines op.j1 op.j2).map (fun l => "+ " ++ l)) ++
          render_opcodes old_lines new_lines post) := by
  refine ⟨fun x => ?_, fun x y h => ?_, fun x h0 h1 => ?_, ?_⟩
  · simp [format_simple_diff]
  · simp [format_simple_diff, h]
  · have heq := pySplitlines_append_nl x h0 h1
    constructor
    · simp [format_simple_diff, heq]
    · simp [format_simple_diff, heq]
  · intro old_lines new_lines pre post op htag
    rw [render_opcodes_append]
    obtain ⟨tag, i1, i2, j1, j2⟩ := op
    simp only at htag
    subst htag
    simp [render_opcodes, render_opcode, List.append_assoc]

theorem c7_witness :
    format_simple_diff (fun _ _ => []) "line one\nline two" "line one\nline two" =
      "(no changes)" ∧
    format_simple_diff (fun _ _ => []) "a\nb" ("a\nb" ++ "\n") = "(no changes)" ∧
    render_opcodes ["o"] ["n"] ([] ++ (⟨DiffTag.replace, 0, 1, 0, 1⟩ : DiffOpcode) :: []) =
      render_opcodes ["o"] ["n"] [] ++
        ((pySlice ["o"] 0 1).map (fun l => "− " ++ l) ++
          (pySlice ["n"] 0 1).map (fun l => "+ " ++ l)) ++
        render_opcodes ["o"] ["n"] [] :=
  ⟨(c7_diff_no_changes_and_replace_order _).1 "line one\nline two",
   ((c7_diff_no_changes_and_replace_order _).2.2.1 "a\nb" (by decide) (by decide)).1,
   (c7_diff_no_changes_and_replace_order (fun _ _ => [])).2.2.2 ["o"] ["n"] [] []
     ⟨DiffTag.replace, 0, 1, 0, 1⟩ rfl⟩

/-! ## C9: the approval gate when disabled or unlocatable -/

/-- C9: when the approval flag is not truthy, or the reviewer executable is
neither at the configured path nor on the search path, the gate returns
`(approved, content) = (true, new_content)` and invokes no subprocess,
whatever the reviewer subprocess would have done. -/
theorem c9_disabled_gate_approves_unchanged (cfg : ApprovalConfig)
    (review : ReviewOutcome) (old_content new_content context_name : String)
    (h : approval_flag_truthy cfg.approvalFlag = false ∨
      get_emacsclient_path cfg = none) :
    request_ediff_approval cfg review old_content new_content context_name =
      ⟨true, new_content, false⟩ := by
  unfold request_ediff_approval is_ediff_approval_enabled
  rcases h with h | h <;> simp [h]

theorem c9_witness :
    request_ediff_approval
      ⟨some "false", none, false, some "emacsclient-on-path"⟩
      (.completed "\"rejected\"" "edited") "old task" "new task" "test-task" =
      ⟨true, "new task", false⟩ :=
  c9_disabled_gate_approves_unchanged _ _ _ _ _ (Or.inl (by decide))

/-! ## C2: the CLOSED transition rule (code bug on DONE→TODO without CLOSED) -/

/-- C2: the code executes `del new_task.properties["CLOSED"]` on every
DONE→TODO transition, so reopening a DONE task that has no `CLOSED`
property (the input of `test_reopen_done_task_without_closed_property`,
which requires the update to succeed) raises `KeyError` instead of
succeeding with `closed` absent.  This evaluates `update_task` at exactly
that input. -/
theorem c2_done_to_todo_without_closed_raises :
    update_task c2_doc "task-done-no-closed" c2_cand c_now =
      .error "KeyError: CLOSED" := rfl

/-! ## C4: the checklist toggle -/

/-- C4 counterexample: with description `"Fix bug"` and checklist body
`"- [ ] Fix bug quickly"`, no line's text after the checkbox marker equals
the description, yet `setCompleted` is not a no-op: it rewrites the line
to `"- [X] Fix bug"`, discarding the trailing `" quickly"`.  The match is
substring containment, not exact equality, and the matched line is
replaced wholesale. -/
theorem c4_counterexample :
    spec_checklist_line_text "- [ ] Fix bug quickly" = some "Fix bug quickly" ∧
    ("Fix bug quickly" ≠ "Fix bug") ∧
    update_checklist_lines "Fix bug" true ["- [ ] Fix bug quickly"] =
      ["- [X] Fix bug"] ∧
    (["- [X] Fix bug"] ≠ ["- [ ] Fix bug quickly"]) := by
  refine ⟨rfl, by decide, rfl, by decide⟩

/-- C4 (amended): `setCompleted(description, completed)` rewrites the first
line that *contains* `"- [ ] description"` or `"- [X] description"` as a
substring, replacing that whole line by `"- marker description"` (any
other text on the line is discarded); every other line is unchanged, and
when no line contains either pattern the body is unchanged — a no-op,
never an error. -/
theorem c4_checklist_first_containing_line_replaced (description : String)
    (completed : Bool) :
    (∀ ls, (∀ l ∈ ls, checklist_line_hits description completed l = false) →
      update_checklist_lines description completed ls = ls) ∧
    (∀ pre line post,
      (∀ l ∈ pre, checklist_line_hits description completed l = false) →
      checklist_line_hits description completed line = true →
      update_checklist_lines description completed (pre ++ line :: post) =
        pre ++ ("- " ++ checkbox_marker completed ++ " " ++ description) :: post) := by
  constructor
  · intro ls
    induction ls with
    | nil => intro _; rfl
    | cons l rest ih =>
      intro h
      have hl := h l (by simp)
      simp only [checklist_line_hits, Bool.or_eq_false_iff] at hl
      simp only [update_checklist_lines]
      rw [if_neg (by simp [hl.1, hl.2])]
      exact congrArg (fun x => l :: x) (ih (fun x hx => h x (by simp [hx])))
  · intro pre line post hpre hline
    simp only [checklist_line_hits] at hline
    revert hpre
    induction pre with
    | nil =>
      intro _
      simp only [List.nil_append, update_checklist_lines]
      rw [if_pos hline]
    | cons p ps ih =>
      intro hpre
      have hp := hpre p (by simp)
      simp only [checklist_line_hits, Bool.or_eq_false_iff] at hp
      simp only [List.cons_append, update_checklist_lines]
      rw [if_neg (by simp [hp.1, hp.2])]
      exact congrArg (fun x => p :: x) (ih (fun x hx => hpre x (by simp [hx])))

theorem c4_witness :
    update_checklist_lines "Fix bug" true
        (["some other line"] ++ "- [ ] Fix bug" :: ["- [ ] later line"]) =
      ["some other line"] ++
        ("- " ++ checkbox_marker true ++ " " ++ "Fix bug") :: ["- [ ] later line"] :=
  (c4_checklist_first_containing_line_replaced "Fix bug" true).2
    ["some other line"] "- [ ] Fix bug" ["- [ ] later line"]
    (by decide) (by decide)

/-! ## Shared lemmas about the task scan -/

lemma parse_tasks_loop_eq (name : String) :
    ∀ cs : List OrgHeading,
      parse_tasks_loop name cs = (cs.filter is_task_heading).map (mk_list_task name) := by
  intro cs
  induction cs with
  | nil => rfl
  | cons h hs ih =>
    rw [List.filter_cons]
    by_cases hl : h.level = 2
    · cases ht : h.todo with
      | none =>
        have hth : is_task_heading h = false := by simp [is_task_heading, ht]
        simp only [parse_tasks_loop, if_pos hl, ht, hth, Bool.false_eq_true, if_false]
        exact ih
      | some st =>
        by_cases hc : ALL_STATES.contains st = true
        · have hth : is_task_heading h = true := by
            simp only [is_task_heading, ht]
            rw [Bool.and_eq_true]
            exact ⟨by simp [hl], hc⟩
          simp only [parse_tasks_loop, if_pos hl, ht, if_pos hc, hth, if_true,
            List.map_cons]
          exact congrArg _ ih
        · have hc' : ALL_STATES.contains st = false := by simpa using hc
          have hth : is_task_heading h = false := by
            simp only [is_task_heading, ht, hc', Bool.and_false]
          simp only [parse_tasks_loop, if_pos hl, ht, hc', Bool.false_eq_true,
            if_false, hth]
          exact ih
    · have hth : is_task_heading h = false := by simp [is_task_heading, hl]
      simp only [parse_tasks_loop, if_neg hl, hth, Bool.false_eq_true, if_false]
      exact ih

lemma find_in_children_sound (identifier name : String) :
    ∀ (cs : List OrgHeading) (i : Nat) (fr : FindResult),
      find_in_children identifier name i cs = some fr →
      fr.sectionName = name ∧ is_task_heading fr.heading = true ∧
        task_matches identifier fr.heading = true ∧
        fr.task = mk_found_task name fr.heading ∧
        ∃ j, fr.childIdx = i + j ∧ cs[j]? = some fr.heading := by
  intro cs
  induction cs with
  | nil => intro i fr hfind; exact absurd hfind (by simp [find_in_children])
  | cons h hs ih =>
    intro i fr hfind
    by_cases hl : h.level = 2
    · cases ht : h.todo with
      | none =>
        simp only [find_in_children, if_pos hl, ht] at hfind
        obtain ⟨h1, h2, h3, h4, j, hj, hget⟩ := ih (i + 1) fr hfind
        exact ⟨h1, h2, h3, h4, j + 1, by omega, by simpa using hget⟩
      | some st =>
        by_cases hc : ALL_STATES.contains st = true
        · by_cases hm : task_matches identifier h = true
          · simp only [find_in_children, if_pos hl, ht, if_pos hc, if_pos hm,
              Option.some.injEq] at hfind
            subst hfind
            refine ⟨rfl, ?_, hm, rfl, 0, by simp, by simp⟩
            simp only [is_task_heading, ht]
            rw [Bool.and_eq_true]
            exact ⟨by simp [hl], hc⟩
          · simp only [find_in_children, if_pos hl, ht, if_pos hc,
              if_neg hm] at hfind
            obtain ⟨h1, h2, h3, h4, j, hj, hget⟩ := ih (i + 1) fr hfind
            exact ⟨h1, h2, h3, h4, j + 1, by omega, by simpa using hget⟩
        · simp only [find_in_children, if_pos hl, ht, if_neg hc] at hfind
          obtain ⟨h1, h2, h3, h4, j, hj, hget⟩ := ih (i + 1) fr hfind
          exact ⟨h1, h2, h3, h4, j + 1, by omega, by simpa using hget⟩
    · simp only [find_in_children, if_neg hl] at hfind
      obtain ⟨h1, h2, h3, h4, j, hj, hget⟩ := ih (i + 1) fr hfind
      exact ⟨h1, h2, h3, h4, j + 1, by omega, by simpa using hget⟩

lemma find_task_sections_sound (identifier : String) :
    ∀ (sections : List String) (doc : OrgDoc) (fr : FindResult),
      find_task_sections doc identifier sections = some fr →
      ∃ sec, find_section doc fr.sectionName = some sec ∧
        is_task_heading fr.heading = true ∧
        task_matches identifier fr.heading = true ∧
        fr.task = mk_found_task fr.sectionName fr.heading ∧
        fr.childIdx < sec.children.length ∧
        sec.children[fr.childIdx]? = some fr.heading ∧
        fr.sectionName ∈ sections := by
  intro sections
  induction sections with
  | nil => intro doc fr hfind; exact absurd hfind (by simp [find_task_sections])
  | cons name rest ih =>
    intro doc fr hfind
    cases hsec : find_section doc name with
    | none =>
      simp only [find_task_sections, hsec] at hfind
      obtain ⟨sec, a1, a2, a3, a4, a5, a6, a7⟩ := ih doc fr hfind
      exact ⟨sec, a1, a2, a3, a4, a5, a6, List.mem_cons_of_mem _ a7⟩
    | some sec =>
      cases hin : find_in_children identifier name 0 sec.children with
      | none =>
        simp only [find_task_sections, hsec, hin] at hfind
        obtain ⟨sec2, a1, a2, a3, a4, a5, a6, a7⟩ := ih doc fr hfind
        exact ⟨sec2, a1, a2, a3, a4, a5, a6, List.mem_cons_of_mem _ a7⟩
      | some r =>
        simp only [find_task_sections, hsec, hin, Option.some.injEq] at hfind
        subst hfind
        obtain ⟨h1, h2, h3, h4, j, hj, hget⟩ :=
          find_in_children_sound identifier name sec.children 0 r hin
        have hidx : r.childIdx = j := by omega
        have hget2 : sec.children[r.childIdx]? = some r.heading := by
          rw [hidx]; exact hget
        have hlt : r.childIdx < sec.children.length := by
          by_contra hge
          push_neg at hge
          rw [List.getElem?_eq_none hge] at hget2
          cases hget2
        exact ⟨sec, by rw [h1, hsec], h2, h3, by rw [h1]; exact h4, hlt, hget2,
          by rw [h1]; exact List.mem_cons_self _ _⟩

lemma is_task_heading_decomp (h : OrgHeading) (hh : is_task_heading h = true) :
    h.level = 2 ∧ ∃ st, h.todo = some st ∧ st ∈ ALL_STATES := by
  simp only [is_task_heading, Bool.and_eq_true] at hh
  refine ⟨by simpa using hh.1, ?_⟩
  cases ht : h.todo with
  | none => rw [ht] at hh; cases hh.2
  | some st =>
    rw [ht] at hh
    exact ⟨st, rfl, by simpa using hh.2⟩

lemma mem_list_tasks_decomp (doc : OrgDoc) (name : String) (t : OrgTask)
    (hmem : t ∈ list_tasks doc name) :
    ∃ sec hh, find_section doc name = some sec ∧ hh ∈ sec.children ∧
      is_task_heading hh = true ∧ t = mk_list_task name hh := by
  unfold list_tasks at hmem
  cases hsec : find_section doc name with
  | none => simp [hsec, parse_tasks_in_section] at hmem
  | some sec =>
    rw [hsec] at hmem
    simp only [parse_tasks_in_section] at hmem
    rw [parse_tasks_loop_eq] at hmem
    obtain ⟨hh, hh1, hh2⟩ := List.mem_map.mp hmem
    obtain ⟨hmem2, hfilt⟩ := List.mem_filter.mp hh1
    exact ⟨sec, hh, rfl, hmem2, hfilt, hh2.symm⟩

/-! ## C10: only level-2 headings with recognized todo keywords are tasks -/

/-- C10: the task-reading operations see exactly the direct children that
are level-2 headings whose todo keyword is one of the configured states:
listing a section is filtering its children by that predicate; any task
produced by `list_tasks` or `search_tasks` comes from such a heading; and
any heading `find_task` ever returns satisfies the predicate (so a child
of the wrong level or with an unrecognized or absent keyword is never
returned or matched). -/
theorem c10_only_task_headings_visible :
    (∀ sec name, parse_tasks_in_section (some sec) name =
      (sec.children.filter is_task_heading).map (mk_list_task name)) ∧
    (∀ doc name t, t ∈ list_tasks doc name →
      ∃ sec hh, find_section doc name = some sec ∧ hh ∈ sec.children ∧
        is_task_heading hh = true ∧ t = mk_list_task name hh) ∧
    (∀ doc identifier sect fr, find_task doc identifier sect = some fr →
      is_task_heading fr.heading = true ∧ fr.heading.level = 2 ∧
        ∃ st, fr.heading.todo = some st ∧ st ∈ ALL_STATES) ∧
    (∀ doc query t, t ∈ search_tasks doc query →
      ∃ name sec hh, (name = ACTIVE_SECTION ∨ name = COMPLETED_SECTION) ∧
        find_section doc name = some sec ∧ hh ∈ sec.children ∧
        is_task_heading hh = true ∧ t = mk_list_task name hh) := by
  refine ⟨?_, fun doc name t h => mem_list_tasks_decomp doc name t h, ?_, ?_⟩
  · intro sec name
    simp only [parse_tasks_in_section]
    exact parse_tasks_loop_eq name sec.children
  · intro doc identifier sect fr hfind
    have hth : is_task_heading fr.heading = true := by
      cases sect with
      | none =>
        obtain ⟨sec, _, hth, _⟩ := find_task_sections_sound identifier _ doc fr hfind
        exact hth
      | some s =>
        obtain ⟨sec, _, hth, _⟩ := find_task_sections_sound identifier _ doc fr hfind
        exact hth
    obtain ⟨hlv, hst⟩ := is_task_heading_decomp fr.heading hth
    exact ⟨hth, hlv, hst⟩
  · intro doc query t hmem
    unfold search_tasks at hmem
    obtain ⟨hmem2, _⟩ := List.mem_filter.mp hmem
    rcases List.mem_append.mp hmem2 with hmem3 | hmem3
    · obtain ⟨sec, hh, h1, h2, h3, h4⟩ := mem_list_tasks_decomp doc ACTIVE_SECTION t hmem3
      exact ⟨ACTIVE_SECTION, sec, hh, Or.inl rfl, h1, h2, h3, h4⟩
    · obtain ⟨sec, hh, h1, h2, h3, h4⟩ :=
        mem_list_tasks_decomp doc COMPLETED_SECTION t hmem3
      exact ⟨COMPLETED_SECTION, sec, hh, Or.inr rfl, h1, h2, h3, h4⟩

theorem c10_witness :
    is_task_heading c10_fr.heading = true ∧ c10_fr.heading.level = 2 ∧
      ∃ st, c10_fr.heading.todo = some st ∧ st ∈ ALL_STATES :=
  c10_only_task_headings_visible.2.2.1 c10_doc "visible task" none c10_fr rfl

lemma find?_cons_pos2 {α : Type} (p : α → Bool) (a : α) (l : List α)
    (h : p a = true) : (a :: l).find? p = some a := by
  simp [List.find?, h]

lemma find?_cons_neg2 {α : Type} (p : α → Bool) (a : α) (l : List α)
    (h : p a = false) : (a :: l).find? p = l.find? p := by
  simp [List.find?, h]

lemma find?_append_cases {α : Type} (p : α → Bool) :
    ∀ l₁ l₂ : List α, (l₁ ++ l₂).find? p =
      match l₁.find? p with
      | some a => some a
      | none => l₂.find? p := by
  intro l₁ l₂
  induction l₁ with
  | nil => simp
  | cons a l ih =>
    by_cases hp : p a = true
    · rw [List.cons_append, find?_cons_pos2 p a _ hp, find?_cons_pos2 p a _ hp]
    · have hp' : p a = false := by simpa using hp
      rw [List.cons_append, find?_cons_neg2 p a _ hp', find?_cons_neg2 p a _ hp']
      exact ih

lemma find?_map_eq {α β : Type} (f : α → β) (p : β → Bool) :
    ∀ l : List α, (l.map f).find? p = (l.find? (fun a => p (f a))).map f := by
  intro l
  induction l with
  | nil => simp
  | cons a l ih =>
    by_cases hp : p (f a) = true
    · rw [List.map_cons, find?_cons_pos2 p (f a) _ hp,
        find?_cons_pos2 (fun a => p (f a)) a _ hp, Option.map_some']
    · have hp' : p (f a) = false := by simpa using hp
      rw [List.map_cons, find?_cons_neg2 p (f a) _ hp',
        find?_cons_neg2 (fun a => p (f a)) a _ hp']
      exact ih

lemma find_in_children_eq (identifier name : String) :
    ∀ (cs : List OrgHeading) (i : Nat),
      find_in_children identifier name i cs =
        ((((List.enumFrom i cs).filter (fun p => is_task_heading p.2)).find?
            (fun p => task_matches identifier p.2)).map
          (fun p => (⟨mk_found_task name p.2, p.2, name, p.1⟩ : FindResult))) := by
  intro cs
  induction cs with
  | nil => intro i; rfl
  | cons h hs ih =>
    intro i
    have henum : List.enumFrom i (h :: hs) = (i, h) :: List.enumFrom (i + 1) hs := rfl
    rw [henum, List.filter_cons]
    by_cases hl : h.level = 2
    · cases ht : h.todo with
      | none =>
        have hth : is_task_heading ((i, h) : Nat × OrgHeading).2 = false := by
          simp [is_task_heading, ht]
        simp only [find_in_children, if_pos hl, ht, hth, Bool.false_eq_true, if_false]
        exact ih (i + 1)
      | some st =>
        by_cases hc : ALL_STATES.contains st = true
        · have hth : is_task_heading ((i, h) : Nat × OrgHeading).2 = true := by
            simp only [is_task_heading, ht]
            rw [Bool.and_eq_true]
            exact ⟨by simp [hl], hc⟩
          by_cases hm : task_matches identifier h = true
          · simp only [find_in_children, if_pos hl, ht, if_pos hc, if_pos hm, hth,
              if_true]
            rw [find?_cons_pos2 (fun p => task_matches identifier p.2)
              ((i, h) : Nat × OrgHeading) _ hm]
            rfl
          · simp only [find_in_children, if_pos hl, ht, if_pos hc, if_neg hm, hth,
              if_true]
            rw [find?_cons_neg2 (fun p => task_matches identifier p.2)
              ((i, h) : Nat × OrgHeading) _ (by simpa using hm)]
            exact ih (i + 1)
        · have hth : is_task_heading ((i, h) : Nat × OrgHeading).2 = false := by
            have hc' : ALL_STATES.contains st = false := by simpa using hc
            simp only [is_task_heading, ht, hc', Bool.and_false]
          simp only [find_in_children, if_pos hl, ht, if_neg hc, hth,
            Bool.false_eq_true, if_false]
          exact ih (i + 1)
    · have hth : is_task_heading ((i, h) : Nat × OrgHeading).2 = false := by
        simp [is_task_heading, hl]
      simp only [find_in_children, if_neg hl, hth, Bool.false_eq_true, if_false]
      exact ih (i + 1)

/-! ## C1: the search order of `find_task` -/

/-- C1 counterexample: in a document whose Active section holds first a
task whose headline contains `"x"` and then a task whose `CUSTOM_ID` is
exactly `"x"`, `find_task("x")` returns the first task (a
headline-substring match, custom id absent), not the later exact
custom-id match — so an exact custom-id match on a later task does *not*
beat a headline-substring match on an earlier task. -/
theorem c1_counterexample :
    getProp c1_task_b.properties "CUSTOM_ID" = some "x" ∧
    getProp c1_task_a.properties "CUSTOM_ID" = none ∧
    (find_task c1_doc "x" none).map
        (fun fr => (fr.sectionName, fr.childIdx, fr.heading.title)) =
      some ("Tasks", 0, "alpha x thing") ∧
    (find_task c1_doc "x" none).map (fun fr => fr.task.custom_id) = some none :=
  ⟨rfl, rfl, rfl, rfl⟩

/-- C1 (amended): `find_task` scans the requested sections in order
(Active then Completed when none is given) and, within each section, the
task headings in document order; the first task matching *any* of the
three criteria wins.  The three criteria are ordered only within a single
task (`task_matches` checks exact custom id, then `"task-" +
lower(trim(identifier))`, then the case-insensitive headline substring);
across tasks, scan position decides, so an exact custom-id match on a
later task loses to a headline-substring match on an earlier one. -/
theorem c1_find_task_is_first_match (doc : OrgDoc) (identifier : String) :
    (∀ sections, find_task_sections doc identifier sections =
      find_task_firstmatch doc identifier sections) ∧
    find_task doc identifier none =
      find_task_firstmatch doc identifier [ACTIVE_SECTION, COMPLETED_SECTION] ∧
    (∀ s, find_task doc identifier (some s) =
      find_task_firstmatch doc identifier [s]) := by
  have main : ∀ sections, find_task_sections doc identifier sections =
      find_task_firstmatch doc identifier sections := by
    intro sections
    induction sections with
    | nil => rfl
    | cons name rest ih =>
      have hcand : task_candidates doc (name :: rest) =
          (match find_section doc name with
            | none => []
            | some sec =>
              ((List.enumFrom 0 sec.children).filter (fun p => is_task_heading p.2)).map
                (fun p => (name, p.1, p.2))) ++ task_candidates doc rest := by
        simp [task_candidates]
      cases hsec : find_section doc name with
      | none =>
        simp only [find_task_sections, hsec]
        rw [ih]
        unfold find_task_firstmatch
        rw [hcand, hsec]
        rfl
      | some sec =>
        simp only [find_task_sections, hsec]
        rw [find_in_children_eq]
        unfold find_task_firstmatch
        rw [hcand, hsec]
        rw [find?_append_cases]
        rw [find?_map_eq]
        cases hfound : ((List.enumFrom 0 sec.children).filter
            (fun p => is_task_heading p.2)).find? (fun p => task_matches identifier p.2) with
        | none =>
          simp only [hfound, Option.map_none']
          rw [ih]
          rfl
        | some a =>
          simp only [hfound, Option.map_some']
  refine ⟨main, main _, fun s => main _⟩

/-! ## C8: the journal search window -/

lemma mem_search_journal_day (fs : Int → Option String) (dn : Int → String)
    (q : String) (d : Int) (e : JournalEntry) :
    e ∈ search_journal_day fs dn q d ↔
      ∃ c, fs d = some c ∧ e ∈ parse_journal_entries (dn d) c ∧
        strHasSub (pyLower (e.headline ++ " " ++ e.content)) q = true := by
  cases hfs : fs d with
  | none => simp [search_journal_day, hfs]
  | some c => simp [search_journal_day, hfs, List.mem_filter]

lemma search_journal_go_eq (fs : Int → Option String) (dn : Int → String)
    (t : Int) (q : String) :
    ∀ (k i : Nat), search_journal_go fs dn t q i k =
      ((List.range k).map
        (fun j => search_journal_day fs dn q (t - ((i + j : Nat) : Int)))).flatten := by
  intro k
  induction k with
  | zero => intro i; rfl
  | succ k ih =>
    intro i
    show search_journal_day fs dn q (t - (i : Int)) ++
        search_journal_go fs dn t q (i + 1) k = _
    rw [ih (i + 1), List.range_succ_eq_map, List.map_cons, List.map_map,
      List.flatten_cons]
    have h0 : ((i + 0 : Nat) : Int) = (i : Int) := by push_cast; ring
    have hfun : ((fun j => search_journal_day fs dn q (t - ((i + j : Nat) : Int))) ∘
        Nat.succ) =
        fun j => search_journal_day fs dn q (t - (((i + 1) + j : Nat) : Int)) := by
      funext j
      simp only [Function.comp_apply]
      congr 1
      push_cast
      ring
    rw [h0, hfun]

/-- C8: `search_journal` examines exactly the `days_back` consecutive
calendar days ending today, in day-descending order (`i = 0` is today),
skipping days whose file does not exist; within one day the parsed file
order is kept (`filter` preserves it); and an entry is returned iff for
some `i < days_back` its day's file exists, the entry parses from it, and
the lowered query occurs in its lowered `headline ++ " " ++ content` — in
particular nothing older than `days_back - 1` days is ever returned. -/
theorem c8_search_journal_window (fs : Int → Option String)
    (day_name : Int → String) (today : Int) (query : String) (days_back : Nat) :
    search_journal fs day_name today query days_back =
      ((List.range days_back).map
        (fun (i : Nat) => search_journal_day fs day_name (pyLower query)
          (today - (i : Int)))).flatten ∧
    ∀ e, e ∈ search_journal fs day_name today query days_back ↔
      ∃ i, i < days_back ∧ ∃ c, fs (today - (i : Int)) = some c ∧
        e ∈ parse_journal_entries (day_name (today - (i : Int))) c ∧
        strHasSub (pyLower (e.headline ++ " " ++ e.content)) (pyLower query) = true := by
  have h1 : search_journal fs day_name today query days_back =
      ((List.range days_back).map
        (fun (i : Nat) => search_journal_day fs day_name (pyLower query)
          (today - (i : Int)))).flatten := by
    unfold search_journal
    rw [search_journal_go_eq]
    simp only [Nat.zero_add]
  refine ⟨h1, fun e => ?_⟩
  rw [h1]
  simp only [List.mem_flatten, List.mem_map]
  constructor
  · rintro ⟨l, ⟨i, hi, rfl⟩, hmem⟩
    rw [List.mem_range] at hi
    obtain ⟨c, hc, hm, hs⟩ := (mem_search_journal_day _ _ _ _ _).mp hmem
    exact ⟨i, hi, c, hc, hm, hs⟩
  · rintro ⟨i, hi, c, hc, hm, hs⟩
    exact ⟨search_journal_day fs day_name (pyLower query) (today - (i : Int)),
      ⟨i, List.mem_range.mpr hi, rfl⟩,
      (mem_search_journal_day _ _ _ _ _).mpr ⟨c, hc, hm, hs⟩⟩

/-! ## Shared lemmas about the properties drawer and section lookup -/

lemma getProp_cons (p : String × String) (ps : List (String × String)) (k : String) :
    getProp (p :: ps) k = if p.1 = k then some p.2 else getProp ps k := by
  by_cases hp : p.1 = k
  · unfold getProp
    rw [find?_cons_pos2 _ _ _ (by simp [hp]), if_pos hp]
    rfl
  · unfold getProp
    rw [find?_cons_neg2 _ _ _ (by simp [hp]), if_neg hp]

lemma getProp_none_of_hasProp_false (props : List (String × String)) (k : String)
    (h : hasProp props k = false) : getProp props k = none := by
  unfold hasProp at h
  cases hg : getProp props k with
  | none => rfl
  | some v => rw [hg] at h; cases h

lemma getProp_append_cases (props1 props2 : List (String × String)) (k : String) :
    getProp (props1 ++ props2) k =
      match getProp props1 k with
      | some v => some v
      | none => getProp props2 k := by
  induction props1 with
  | nil => simp [getProp]
  | cons p ps ih =>
    rw [List.cons_append, getProp_cons, getProp_cons]
    by_cases hp : p.1 = k
    · rw [if_pos hp, if_pos hp]
    · rw [if_neg hp, if_neg hp, ih]

lemma getProp_map_set_self (props : List (String × String)) (k v : String)
    (h : hasProp props k = true) :
    getProp (props.map (fun p => if p.1 = k then (k, v) else p)) k = some v := by
  induction props with
  | nil => simp [hasProp, getProp] at h
  | cons p ps ih =>
    by_cases hp : p.1 = k
    · rw [List.map_cons, if_pos hp, getProp_cons, if_pos rfl]
    · rw [List.map_cons, if_neg hp, getProp_cons, if_neg hp]
      apply ih
      unfold hasProp at h ⊢
      rw [getProp_cons, if_neg hp] at h
      exact h

lemma getProp_map_set_ne (props : List (String × String)) (k v k' : String)
    (h : k' ≠ k) :
    getProp (props.map (fun p => if p.1 = k then (k, v) else p)) k' =
      getProp props k' := by
  induction props with
  | nil => rfl
  | cons p ps ih =>
    by_cases hp : p.1 = k
    · rw [List.map_cons, if_pos hp, getProp_cons, getProp_cons,
        if_neg (fun (hh : ((k : String), v).1 = k') => h hh.symm),
        if_neg (by rw [hp]; exact fun hh => h hh.symm)]
      exact ih
    · rw [List.map_cons, if_neg hp, getProp_cons, getProp_cons]
      by_cases hp' : p.1 = k'
      · rw [if_pos hp', if_pos hp']
      · rw [if_neg hp', if_neg hp']
        exact ih

lemma getProp_setProp_self (props : List (String × String)) (k v : String) :
    getProp (setProp props k v) k = some v := by
  unfold setProp
  by_cases h : hasProp props k = true
  · rw [if_pos h]
    exact getProp_map_set_self props k v h
  · have h' : hasProp props k = false := by simpa using h
    rw [if_neg (by simp [h'])]
    rw [getProp_append_cases, getProp_none_of_hasProp_false props k h']
    simp [getProp_cons]

lemma getProp_setProp_ne (props : List (String × String)) (k v k' : String)
    (h : k' ≠ k) : getProp (setProp props k v) k' = getProp props k' := by
  unfold setProp
  by_cases hh : hasProp props k = true
  · rw [if_pos hh]
    exact getProp_map_set_ne props k v k' h
  · have h' : hasProp props k = false := by simpa using hh
    rw [if_neg (by simp [h'])]
    rw [getProp_append_cases]
    cases hg : getProp props k' with
    | none => rw [getProp_cons, if_neg (fun hk => h hk.symm)]; rfl
    | some v2 => rfl

lemma isSectionNamed_withChildren (name : String) (h : OrgHeading)
    (c : List OrgHeading) : isSectionNamed name (h.withChildren c) =
      isSectionNamed name h := by
  cases h; rfl

lemma isSectionNamed_withBody (name : String) (h : OrgHeading) (b : String) :
    isSectionNamed name (h.withBody b) = isSectionNamed name h := by
  cases h; rfl

lemma isSectionNamed_ne_of_named (name name2 : String) (h : OrgHeading)
    (hp : isSectionNamed name h = true) (hne : name2 ≠ name) :
    isSectionNamed name2 h = false := by
  unfold isSectionNamed at hp ⊢
  rw [Bool.and_eq_true] at hp
  have hclean : cleanSectionTitle h.title = name := by simpa using hp.2
  have hne' : name ≠ name2 := fun hh => hne hh.symm
  simp [hclean, hne']

lemma find_section_mapChildren_same (doc : OrgDoc) (name : String)
    (f : List OrgHeading → List OrgHeading) :
    ∀ sec, find_section doc name = some sec →
      find_section (mapSectionChildren doc name f) name =
        some (sec.withChildren (f sec.children)) := by
  induction doc with
  | nil => intro sec h; exact absurd h (by simp [find_section])
  | cons h hs ih =>
    intro sec hfind
    by_cases hp : isSectionNamed name h = true
    · unfold find_section at hfind
      rw [find?_cons_pos2 _ _ _ hp] at hfind
      cases hfind
      unfold mapSectionChildren
      rw [if_pos hp]
      unfold find_section
      rw [find?_cons_pos2 _ _ _ (by rw [isSectionNamed_withChildren]; exact hp)]
    · unfold find_section at hfind
      rw [find?_cons_neg2 _ _ _ (by simpa using hp)] at hfind
      unfold mapSectionChildren
      rw [if_neg hp]
      unfold find_section
      rw [find?_cons_neg2 _ _ _ (by simpa using hp)]
      exact ih sec hfind

lemma find_section_mapChildren_ne (doc : OrgDoc) (name name2 : String)
    (f : List OrgHeading → List OrgHeading) (hne : name2 ≠ name) :
    find_section (mapSectionChildren doc name f) name2 = find_section doc name2 := by
  induction doc with
  | nil => rfl
  | cons h hs ih =>
    by_cases hp : isSectionNamed name h = true
    · unfold mapSectionChildren
      rw [if_pos hp]
      have h2 : isSectionNamed name2 h = false := isSectionNamed_ne_of_named name name2 h hp hne
      unfold find_section
      rw [find?_cons_neg2 _ _ _ (by rw [isSectionNamed_withChildren]; exact h2),
        find?_cons_neg2 _ _ _ h2]
    · unfold mapSectionChildren
      rw [if_neg hp]
      by_cases h2 : isSectionNamed name2 h = true
      · unfold find_section
        rw [find?_cons_pos2 _ _ _ h2, find?_cons_pos2 _ _ _ h2]
      · unfold find_section
        rw [find?_cons_neg2 _ _ _ (by simpa using h2),
          find?_cons_neg2 _ _ _ (by simpa using h2)]
        exact ih

lemma find_section_mapBody_ne (doc : OrgDoc) (name name2 : String)
    (f : String → String) (hne : name2 ≠ name) :
    find_section (mapSectionBody doc name f) name2 = find_section doc name2 := by
  induction doc with
  | nil => rfl
  | cons h hs ih =>
    by_cases hp : isSectionNamed name h = true
    · unfold mapSectionBody
      rw [if_pos hp]
      have h2 : isSectionNamed name2 h = false := isSectionNamed_ne_of_named name name2 h hp hne
      unfold find_section
      rw [find?_cons_neg2 _ _ _ (by rw [isSectionNamed_withBody]; exact h2),
        find?_cons_neg2 _ _ _ h2]
    · unfold mapSectionBody
      rw [if_neg hp]
      by_cases h2 : isSectionNamed name2 h = true
      · unfold find_section
        rw [find?_cons_pos2 _ _ _ h2, find?_cons_pos2 _ _ _ h2]
      · unfold find_section
        rw [find?_cons_neg2 _ _ _ (by simpa using h2),
          find?_cons_neg2 _ _ _ (by simpa using h2)]
        exact ih

lemma find_section_update_hl (doc : OrgDoc) (d : String) (c : Bool)
    (name2 : String) (hne : name2 ≠ HIGH_LEVEL_SECTION) :
    find_section (update_high_level_task doc d c) name2 = find_section doc name2 := by
  unfold update_high_level_task
  cases find_section doc HIGH_LEVEL_SECTION with
  | none => rfl
  | some sec => exact find_section_mapBody_ne doc HIGH_LEVEL_SECTION name2 _ hne

lemma find_section_add_hl (doc : OrgDoc) (d : String) (name2 : String)
    (hne : name2 ≠ HIGH_LEVEL_SECTION) :
    find_section (add_high_level_task doc d) name2 = find_section doc name2 := by
  unfold add_high_level_task
  cases find_section doc HIGH_LEVEL_SECTION with
  | none => rfl
  | some sec => exact find_section_mapBody_ne doc HIGH_LEVEL_SECTION name2 _ hne

lemma todo_withProperties (h : OrgHeading) (p : List (String × String)) :
    (h.withProperties p).todo = h.todo := by cases h; rfl

lemma title_withProperties (h : OrgHeading) (p : List (String × String)) :
    (h.withProperties p).title = h.title := by cases h; rfl

lemma properties_withProperties (h : OrgHeading) (p : List (String × String)) :
    (h.withProperties p).properties = p := by cases h; rfl

lemma hasProp_setProp_ne (props : List (String × String)) (k v k' : String)
    (h : k' ≠ k) : hasProp (setProp props k v) k' = hasProp props k' := by
  unfold hasProp
  rw [getProp_setProp_ne props k v k' h]

/-! ## C6: `create_task` -/

/-- C6: `create_task` on an existing section returns the new record as the
last child of that section; a missing `ID` is filled with the upper-cased
fresh UUID while a supplied one is kept; a missing `CREATED` is stamped
with the current active-style timestamp while a supplied one is kept; and
a missing section is a not-found error (no new document is produced, so
nothing is written). -/
theorem c6_create_task_contract (doc : OrgDoc) (section_name : String)
    (cand : OrgHeading) (fresh_uuid : String) (now : OrgDateTime) :
    (find_section doc section_name = none →
      create_task doc section_name cand fresh_uuid now =
        .error ("Section not found: " ++ section_name)) ∧
    (∀ sec, find_section doc section_name = some sec →
      ∃ new_task newDoc,
        create_task doc section_name cand fresh_uuid now =
          .ok (section_name, heading_to_org_string new_task, newDoc) ∧
        new_task.todo = cand.todo ∧ new_task.title = cand.title ∧
        (hasProp cand.properties "ID" = false →
          getProp new_task.properties "ID" = some (pyUpper fresh_uuid)) ∧
        (hasProp cand.properties "ID" = true →
          getProp new_task.properties "ID" = getProp cand.properties "ID") ∧
        (hasProp cand.properties "CREATED" = false →
          getProp new_task.properties "CREATED" =
            some (get_current_timestamp now true)) ∧
        (hasProp cand.properties "CREATED" = true →
          getProp new_task.properties "CREATED" =
            getProp cand.properties "CREATED") ∧
        find_section newDoc section_name =
          some (sec.withChildren (sec.children ++ [new_task]))) := by
  constructor
  · intro h
    simp only [create_task, h]
  · intro sec hsec
    simp only [create_task, hsec]
    refine ⟨_, _, rfl, todo_withProperties _ _, title_withProperties _ _,
      ?_, ?_, ?_, ?_, ?_⟩
    · intro hid
      rw [properties_withProperties]
      rw [if_neg (show ¬hasProp cand.properties "ID" = true by simp [hid])]
      have hcr : hasProp (setProp cand.properties "ID" (pyUpper fresh_uuid))
          "CREATED" = hasProp cand.properties "CREATED" :=
        hasProp_setProp_ne _ _ _ _ (by decide)
      by_cases hc : hasProp cand.properties "CREATED" = true
      · rw [if_pos (show hasProp (setProp cand.properties "ID" (pyUpper fresh_uuid))
            "CREATED" = true by rw [hcr]; exact hc)]
        exact getProp_setProp_self _ _ _
      · rw [if_neg (show ¬hasProp (setProp cand.properties "ID" (pyUpper fresh_uuid))
            "CREATED" = true by rw [hcr]; exact hc)]
        rw [getProp_setProp_ne _ _ _ _ (by decide)]
        exact getProp_setProp_self _ _ _
    · intro hid
      rw [properties_withProperties]
      rw [if_pos (show hasProp cand.properties "ID" = true from hid)]
      by_cases hc : hasProp cand.properties "CREATED" = true
      · rw [if_pos (show hasProp cand.properties "CREATED" = true from hc)]
      · rw [if_neg (show ¬hasProp cand.properties "CREATED" = true from hc)]
        exact getProp_setProp_ne _ _ _ _ (by decide)
    · intro hcr
      rw [properties_withProperties]
      by_cases hid : hasProp cand.properties "ID" = true
      · rw [if_pos (show hasProp cand.properties "ID" = true from hid)]
        rw [if_neg (show ¬hasProp cand.properties "CREATED" = true by simp [hcr])]
        exact getProp_setProp_self _ _ _
      · rw [if_neg (show ¬hasProp cand.properties "ID" = true from hid)]
        have hcr2 : hasProp (setProp cand.properties "ID" (pyUpper fresh_uuid))
            "CREATED" = false := by
          rw [hasProp_setProp_ne _ _ _ _ (by decide)]
          exact hcr
        rw [if_neg (show ¬hasProp (setProp cand.properties "ID" (pyUpper fresh_uuid))
            "CREATED" = true by simp [hcr2])]
        exact getProp_setProp_self _ _ _
    · intro hcr
      rw [properties_withProperties]
      by_cases hid : hasProp cand.properties "ID" = true
      · rw [if_pos (show hasProp cand.properties "ID" = true from hid)]
        rw [if_pos (show hasProp cand.properties "CREATED" = true from hcr)]
      · rw [if_neg (show ¬hasProp cand.properties "ID" = true from hid)]
        have hcr2 : hasProp (setProp cand.properties "ID" (pyUpper fresh_uuid))
            "CREATED" = true := by
          rw [hasProp_setProp_ne _ _ _ _ (by decide)]
          exact hcr
        rw [if_pos (show hasProp (setProp cand.properties "ID" (pyUpper fresh_uuid))
            "CREATED" = true from hcr2)]
        exact getProp_setProp_ne _ _ _ _ (by decide)
    · by_cases hact : section_name = ACTIVE_SECTION
      · rw [if_pos hact]
        rw [find_section_add_hl _ _ _ (by rw [hact]; decide)]
        exact find_section_mapChildren_same doc section_name _ sec hsec
      · rw [if_neg hact]
        exact find_section_mapChildren_same doc section_name _ sec hsec

theorem c6_witness :
    ∃ new_task newDoc,
      create_task c6_doc "Tasks" c6_cand "ab-12-cd" c_now =
        .ok ("Tasks", heading_to_org_string new_task, newDoc) ∧
      new_task.todo = c6_cand.todo ∧ new_task.title = c6_cand.title ∧
      (hasProp c6_cand.properties "ID" = false →
        getProp new_task.properties "ID" = some (pyUpper "ab-12-cd")) ∧
      (hasProp c6_cand.properties "ID" = true →
        getProp new_task.properties "ID" = getProp c6_cand.properties "ID") ∧
      (hasProp c6_cand.properties "CREATED" = false →
        getProp new_task.properties "CREATED" =
          some (get_current_timestamp c_now true)) ∧
      (hasProp c6_cand.properties "CREATED" = true →
        getProp new_task.properties "CREATED" =
          getProp c6_cand.properties "CREATED") ∧
      find_section newDoc "Tasks" =
        some ((OrgHeading.mk 1 none "Tasks" [] "" []
            [.mk 2 (some "TODO") "Existing" [] "" [] []]).withChildren
          ((OrgHeading.mk 1 none "Tasks" [] "" []
            [.mk 2 (some "TODO") "Existing" [] "" [] []]).children ++ [new_task])) :=
  (c6_create_task_contract c6_doc "Tasks" c6_cand "ab-12-cd" c_now).2
    (.mk 1 none "Tasks" [] "" [] [.mk 2 (some "TODO") "Existing" [] "" [] []]) rfl

/-! ## C3: placement on update -/

lemma length_removeAt {α : Type} :
    ∀ (l : List α) (idx : Nat), idx < l.length →
      (removeAt idx l).length = l.length - 1 := by
  intro l
  induction l with
  | nil => intro idx h; cases h
  | cons x xs ih =>
    intro idx h
    cases idx with
    | zero => simp [removeAt]
    | succ n =>
      have h2 : n < xs.length := by simpa using h
      have h3 := ih n h2
      simp only [removeAt, List.length_cons, h3]
      omega

lemma pyInsert_zero {α : Type} (a : α) (l : List α) : pyInsert 0 a l = a :: l := by
  cases l <;> rfl

lemma pyInsert_removeAt_set {α : Type} :
    ∀ (l : List α) (idx : Nat) (a : α), idx < l.length →
      pyInsert idx a (removeAt idx l) = l.set idx a := by
  intro l
  induction l with
  | nil => intro idx a h; cases h
  | cons x xs ih =>
    intro idx a h
    cases idx with
    | zero =>
      simp only [removeAt, List.set_cons_zero]
      exact pyInsert_zero a xs
    | succ n =>
      simp only [removeAt, pyInsert, List.set_cons_succ]
      exact congrArg _ (ih n a (by simpa using h))

lemma reorder_children_eq_set {α : Type} (l : List α) (idx : Nat) (a : α)
    (h : idx < l.length) :
    (if (removeAt idx l ++ [a]).length > 1 then
      pyInsert idx ((removeAt idx l ++ [a]).getLastD a)
        (removeAt idx l ++ [a]).dropLast
    else removeAt idx l ++ [a]) = l.set idx a := by
  rw [List.getLastD_concat, List.dropLast_concat]
  by_cases hlen : (removeAt idx l ++ [a]).length > 1
  · rw [if_pos hlen]
    exact pyInsert_removeAt_set l idx a h
  · rw [if_neg hlen]
    have hrem : removeAt idx l = [] := by
      rcases hr : removeAt idx l with _ | ⟨y, ys⟩
      · rfl
      · rw [hr] at hlen
        simp at hlen
    have hlen1 : l.length = 1 := by
      have := length_removeAt l idx h
      rw [hrem] at this
      simp at this
      omega
    rcases l with _ | ⟨x, ⟨⟩ | _⟩
    · cases h
    · have hidx : idx = 0 := by
        simpa using h
      subst hidx
      rfl
    · simp at hlen1

/-- C3: when `update_task` succeeds, `moved` is false exactly when the
target section (derived from the new status) equals the record's current
section; in that case the section's children are the old children with
the record at its old index replaced by the new record in place (same
ordinal position, not appended); when the sections differ, `moved` is
true, the record's slot is removed from the old section's children and
the new record is appended as the last child of the new section. -/
theorem c3_update_placement (doc : OrgDoc) (identifier : String)
    (cand : OrgHeading) (now : OrgDateTime) (res : UpdateResult)
    (hup : update_task doc identifier cand now = .ok res) :
    (res.moved = false ↔ res.oldSection = res.newSection) ∧
    (res.oldSection = res.newSection →
      res.moved = false ∧
      ∃ fr sec, find_task doc identifier none = some fr ∧
        find_section doc res.oldSection = some sec ∧
        fr.childIdx < sec.children.length ∧
        sec.children[fr.childIdx]? = some fr.heading ∧
        find_section res.doc res.oldSection =
          some (sec.withChildren (sec.children.set fr.childIdx res.newHeading))) ∧
    (res.oldSection ≠ res.newSection →
      res.moved = true ∧
      ∃ fr oldSec newSec, find_task doc identifier none = some fr ∧
        find_section doc res.oldSection = some oldSec ∧
        find_section doc res.newSection = some newSec ∧
        oldSec.children[fr.childIdx]? = some fr.heading ∧
        find_section res.doc res.oldSection =
          some (oldSec.withChildren (removeAt fr.childIdx oldSec.children)) ∧
        find_section res.doc res.newSection =
          some (newSec.withChildren (newSec.children ++ [res.newHeading]))) := by
  cases hfind : find_task doc identifier none with
  | none =>
    simp only [update_task, hfind] at hup
    cases hup
  | some fr =>
    obtain ⟨sec0, hsec0, hth, hmatch, htask, hlt, hget, hmem⟩ :=
      find_task_sections_sound identifier [ACTIVE_SECTION, COMPLETED_SECTION]
        doc fr hfind
    have hnothl : fr.sectionName ≠ HIGH_LEVEL_SECTION := by
      simp only [List.mem_cons, List.not_mem_nil, or_false] at hmem
      rcases hmem with h | h
      · rw [h]; decide
      · rw [h]; decide
    simp only [update_task, hfind] at hup
    cases hprops : updated_task_properties fr.task cand now with
    | error e =>
      simp only [hprops] at hup
      cases hup
    | ok props =>
      simp only [hprops] at hup
      cases htarget : find_section doc
          (if cand.todo = some "DONE" then COMPLETED_SECTION else ACTIVE_SECTION) with
      | none =>
        simp only [htarget] at hup
        cases hup
      | some tsec =>
        simp only [htarget, Except.ok.injEq] at hup
        have hOld : res.oldSection = fr.sectionName := by rw [← hup]
        have hNew : res.newSection =
            (if cand.todo = some "DONE" then COMPLETED_SECTION else ACTIVE_SECTION) := by
          rw [← hup]
        have hMoved : res.moved = decide (fr.sectionName ≠
            (if cand.todo = some "DONE" then COMPLETED_SECTION else ACTIVE_SECTION)) := by
          rw [← hup]
        have hHead : res.newHeading = cand.withProperties props := by rw [← hup]
        have hDoc : res.doc =
            (if fr.sectionName ≠
                (if cand.todo = some "DONE" then COMPLETED_SECTION else ACTIVE_SECTION) then
              update_high_level_task
                (if fr.sectionName =
                    (if cand.todo = some "DONE" then COMPLETED_SECTION else ACTIVE_SECTION) then
                  mapSectionChildren doc fr.sectionName (fun children =>
                    if (removeAt fr.childIdx children ++ [cand.withProperties props]).length > 1 then
                      pyInsert fr.childIdx
                        ((removeAt fr.childIdx children ++
                          [cand.withProperties props]).getLastD (cand.withProperties props))
                        (removeAt fr.childIdx children ++ [cand.withProperties props]).dropLast
                    else removeAt fr.childIdx children ++ [cand.withProperties props])
                else
                  mapSectionChildren
                    (mapSectionChildren doc fr.sectionName (removeAt fr.childIdx))
                    (if cand.todo = some "DONE" then COMPLETED_SECTION else ACTIVE_SECTION)
                    (fun cs => cs ++ [cand.withProperties props]))
                (extract_task_description cand.title) (decide (cand.todo = some "DONE"))
            else
              if fr.sectionName =
                  (if cand.todo = some "DONE" then COMPLETED_SECTION else ACTIVE_SECTION) then
                mapSectionChildren doc fr.sectionName (fun children =>
                  if (removeAt fr.childIdx children ++ [cand.withProperties props]).length > 1 then
                    pyInsert fr.childIdx
                      ((removeAt fr.childIdx children ++
                        [cand.withProperties props]).getLastD (cand.withProperties props))
                      (removeAt fr.childIdx children ++ [cand.withProperties props]).dropLast
                  else removeAt fr.childIdx children ++ [cand.withProperties props])
              else
                mapSectionChildren
                  (mapSectionChildren doc fr.sectionName (removeAt fr.childIdx))
                  (if cand.todo = some "DONE" then COMPLETED_SECTION else ACTIVE_SECTION)
                  (fun cs => cs ++ [cand.withProperties props])) := by
          rw [← hup]
        have htarget_nothl :
            (if cand.todo = some "DONE" then COMPLETED_SECTION else ACTIVE_SECTION) ≠
              HIGH_LEVEL_SECTION := by
          by_cases hd : cand.todo = some "DONE"
          · rw [if_pos hd]; decide
          · rw [if_neg hd]; decide
        refine ⟨?_, ?_, ?_⟩
        · rw [hMoved, hOld, hNew]
          simp [decide_eq_false_iff_not]
        · intro heq
          rw [hOld, hNew] at heq
          constructor
          · rw [hMoved]
            simp [heq]
          · refine ⟨fr, sec0, rfl, by rw [hOld]; exact hsec0, hlt, hget, ?_⟩
            rw [hDoc, hOld, hHead]
            rw [if_neg (by simp [heq]), if_pos heq]
            rw [find_section_mapChildren_same doc fr.sectionName _ sec0 hsec0]
            rw [reorder_children_eq_set sec0.children fr.childIdx
              (cand.withProperties props) hlt]
        · intro hne
          rw [hOld, hNew] at hne
          constructor
          · rw [hMoved]
            simp [hne]
          · refine ⟨fr, sec0, tsec, rfl, by rw [hOld]; exact hsec0,
              by rw [hNew]; exact htarget, hget, ?_, ?_⟩
            · rw [hDoc, hOld]
              rw [if_pos hne, if_neg hne]
              rw [find_section_update_hl _ _ _ _ hnothl]
              rw [find_section_mapChildren_ne _ _ _ _ hne]
              exact find_section_mapChildren_same doc fr.sectionName _ sec0 hsec0
            · rw [hDoc, hNew, hHead]
              rw [if_pos hne, if_neg hne]
              rw [find_section_update_hl _ _ _ _ htarget_nothl]
              have hstep : find_section
                  (mapSectionChildren doc fr.sectionName (removeAt fr.childIdx))
                  (if cand.todo = some "DONE" then COMPLETED_SECTION
                    else ACTIVE_SECTION) = some tsec := by
                rw [find_section_mapChildren_ne _ _ _ _ (fun hh => hne hh.symm)]
                exact htarget
              exact find_section_mapChildren_same _ _ _ tsec hstep

theorem c3_witness :
    (c3_res.oldSection = c3_res.newSection) ∧
    (c3_res.moved = false ∧
      ∃ fr sec, find_task c3_doc "task-t1" none = some fr ∧
        find_section c3_doc c3_res.oldSection = some sec ∧
        fr.childIdx < sec.children.length ∧
        sec.children[fr.childIdx]? = some fr.heading ∧
        find_section c3_res.doc c3_res.oldSection =
          some (sec.withChildren (sec.children.set fr.childIdx c3_res.newHeading))) ∧
    (c3_res_moved.oldSection ≠ c3_res_moved.newSection) ∧
    (c3_res_moved.moved = true ∧
      ∃ fr oldSec newSec, find_task c3_doc "task-t1" none = some fr ∧
        find_section c3_doc c3_res_moved.oldSection = some oldSec ∧
        find_section c3_doc c3_res_moved.newSection = some newSec ∧
        oldSec.children[fr.childIdx]? = some fr.heading ∧
        find_section c3_res_moved.doc c3_res_moved.oldSection =
          some (oldSec.withChildren (removeAt fr.childIdx oldSec.children)) ∧
        find_section c3_res_moved.doc c3_res_moved.newSection =
          some (newSec.withChildren (newSec.children ++ [c3_res_moved.newHeading]))) :=
  ⟨rfl,
   (c3_update_placement c3_doc "task-t1" c3_cand c_now c3_res rfl).2.1 rfl,
   by decide,
   (c3_update_placement c3_doc "task-t1" c3_cand_done c_now c3_res_moved rfl).2.2
     (by decide)⟩

/-! ## C5: generic list lemmas for the journal frame property -/

lemma dropWhile_length_le {α : Type} (p : α → Bool) :
    ∀ l : List α, (l.dropWhile p).length ≤ l.length := by
  intro l
  induction l with
  | nil => simp
  | cons x xs ih =>
    by_cases hp : p x = true
    · rw [List.dropWhile_cons_of_pos hp]
      exact Nat.le_succ_of_le ih
    · rw [List.dropWhile_cons_of_neg hp]

lemma mem_takeWhile_pred {α : Type} (p : α → Bool) :
    ∀ (l : List α) (x : α), x ∈ l.takeWhile p → p x = true := by
  intro l
  induction l with
  | nil => intro x hx; simp at hx
  | cons a as ih =>
    intro x hx
    by_cases hp : p a = true
    · rw [List.takeWhile_cons_of_pos hp] at hx
      rcases List.mem_cons.mp hx with h | h
      · rw [h]; exact hp
      · exact ih x h
    · rw [List.takeWhile_cons_of_neg hp] at hx
      simp at hx

lemma head_dropWhile_pred {α : Type} (p : α → Bool) :
    ∀ (l : List α) (x : α), (l.dropWhile p).head? = some x → p x = false := by
  intro l
  induction l with
  | nil => intro x hx; simp at hx
  | cons a as ih =>
    intro x hx
    by_cases hp : p a = true
    · rw [List.dropWhile_cons_of_pos hp] at hx
      exact ih x hx
    · rw [List.dropWhile_cons_of_neg hp] at hx
      simp only [List.head?_cons, Option.some.injEq] at hx
      rw [← hx]
      simpa using hp

lemma takeWhile_of_all {α : Type} (p : α → Bool) :
    ∀ l : List α, (∀ x ∈ l, p x = true) → l.takeWhile p = l := by
  intro l
  induction l with
  | nil => intro _; rfl
  | cons a as ih =>
    intro h
    rw [List.takeWhile_cons_of_pos (h a (by simp))]
    exact congrArg _ (ih (fun x hx => h x (by simp [hx])))

lemma takeWhile_append_head {α : Type} (p : α → Bool) :
    ∀ (a b : List α), (∀ x, b.head? = some x → p x = false) →
      (a ++ b).takeWhile p = a.takeWhile p ∧
      (a ++ b).dropWhile p = a.dropWhile p ++ b := by
  intro a
  induction a with
  | nil =>
    intro b hb
    cases b with
    | nil => simp
    | cons x xs =>
      have hx : ¬p x = true := by
        rw [hb x rfl]
        exact Bool.false_ne_true
      simp [List.takeWhile_cons_of_neg hx, List.dropWhile_cons_of_neg hx]
  | cons c a' ih =>
    intro b hb
    by_cases hp : p c = true
    · rw [List.cons_append, List.takeWhile_cons_of_pos hp,
        List.takeWhile_cons_of_pos hp, List.dropWhile_cons_of_pos hp,
        List.dropWhile_cons_of_pos hp]
      exact ⟨congrArg _ (ih b hb).1, (ih b hb).2⟩
    · rw [List.cons_append, List.takeWhile_cons_of_neg hp,
        List.takeWhile_cons_of_neg hp, List.dropWhile_cons_of_neg hp,
        List.dropWhile_cons_of_neg hp, List.cons_append]
      exact ⟨rfl, rfl⟩

lemma drop_cons_of_getElem {α : Type} :
    ∀ (l : List α) (n : Nat) (a : α), l[n]? = some a →
      l.drop n = a :: l.drop (n + 1) := by
  intro l
  induction l with
  | nil => intro n a h; simp at h
  | cons x xs ih =>
    intro n a h
    cases n with
    | zero =>
      simp only [List.getElem?_cons_zero, Option.some.injEq] at h
      rw [h]
      rfl
    | succ m =>
      simp only [List.getElem?_cons_succ] at h
      simpa using ih m a h

lemma getLast_drop_eq {α : Type} :
    ∀ (l : List α) (n : Nat), l.drop n ≠ [] →
      (l.drop n).getLast? = l.getLast? := by
  intro l
  induction l with
  | nil => intro n h; simp at h
  | cons x xs ih =>
    intro n h
    cases n with
    | zero => rfl
    | succ m =>
      rw [List.drop_succ_cons] at h ⊢
      rw [ih m h]
      cases hxs : xs with
      | nil =>
        rw [hxs] at h
        simp at h
      | cons y ys => rw [List.getLast?_cons_cons]

lemma getLast_map_eq {α β : Type} (f : α → β) :
    ∀ l : List α, (l.map f).getLast? = (l.getLast?).map f := by
  intro l
  induction l with
  | nil => rfl
  | cons x xs ih =>
    cases xs with
    | nil => rfl
    | cons y ys =>
      rw [List.map_cons, List.map_cons, List.getLast?_cons_cons,
        List.getLast?_cons_cons, ← List.map_cons]
      exact ih

/-! ## C5: split/join round trips -/

lemma splitOnCh_no_sep (sep : Char) :
    ∀ a : List Char, sep ∉ a → splitOnCh sep a = [a] := by
  intro a
  induction a with
  | nil => intro _; rfl
  | cons c cs ih =>
    intro h
    have hc : c ≠ sep := fun hcs => h (by rw [hcs]; exact List.mem_cons_self _ _)
    have hcs : sep ∉ cs := fun hm => h (List.mem_cons_of_mem _ hm)
    obtain ⟨l, ls, h2, h3⟩ := splitOnCh_cons sep c cs hc
    rw [ih hcs] at h2
    cases h2
    exact h3

lemma splitOnCh_append_cons (sep : Char) :
    ∀ (a r : List Char), sep ∉ a →
      splitOnCh sep (a ++ sep :: r) = a :: splitOnCh sep r := by
  intro a
  induction a with
  | nil => intro r _; rw [List.nil_append, splitOnCh_cons_sep]
  | cons c cs ih =>
    intro r h
    have hc : c ≠ sep := fun hcs => h (by rw [hcs]; exact List.mem_cons_self _ _)
    have hcs : sep ∉ cs := fun hm => h (List.mem_cons_of_mem _ hm)
    rw [List.cons_append,
      splitOnCh_cons_ne sep c (cs ++ sep :: r) hc cs (splitOnCh sep r) (ih r hcs)]

lemma splitOnCh_pieces_no_sep (sep : Char) :
    ∀ (s : List Char) (l : List Char), l ∈ splitOnCh sep s → sep ∉ l := by
  intro s
  induction s with
  | nil =>
    intro l hl
    simp only [splitOnCh, List.mem_singleton] at hl
    rw [hl]
    exact List.not_mem_nil sep
  | cons c cs ih =>
    intro l hl
    by_cases hc : c = sep
    · rw [hc, splitOnCh_cons_sep] at hl
      rcases List.mem_cons.mp hl with h | h
      · rw [h]; exact List.not_mem_nil sep
      · exact ih l h
    · obtain ⟨l0, ls, h2, h3⟩ := splitOnCh_cons sep c cs hc
      rw [h3] at hl
      rcases List.mem_cons.mp hl with h | h
      · rw [h]
        intro hmem
        rcases List.mem_cons.mp hmem with h4 | h4
        · exact hc h4.symm
        · exact ih l0 (by rw [h2]; exact List.mem_cons_self _ _) h4
      · exact ih l (by rw [h2]; exact List.mem_cons_of_mem _ h)

lemma splitOnCh_joinNlCh :
    ∀ xs : List (List Char), xs ≠ [] → (∀ l ∈ xs, '\n' ∉ l) →
      splitOnCh '\n' (joinNlCh xs) = xs := by
  intro xs
  induction xs with
  | nil => intro h _; exact absurd rfl h
  | cons x ys ih =>
    intro _ hfree
    cases ys with
    | nil =>
      show splitOnCh '\n' (joinNlCh [x]) = [x]
      rw [joinNlCh]
      exact splitOnCh_no_sep '\n' x (hfree x (List.mem_cons_self _ _))
    | cons y zs =>
      rw [joinNlCh, splitOnCh_append_cons '\n' x (joinNlCh (y :: zs))
        (hfree x (List.mem_cons_self _ _))]
      exact congrArg _ (ih (by simp) (fun l hl => hfree l (List.mem_cons_of_mem _ hl)))

lemma map_mk_data : ∀ xs : List String, (xs.map String.data).map String.mk = xs := by
  intro xs
  induction xs with
  | nil => rfl
  | cons x ys ih =>
    rw [List.map_cons, List.map_cons, ih]

lemma pySplitNl_joinNl (xs : List String) (hne : xs ≠ [])
    (hfree : ∀ x ∈ xs, '\n' ∉ x.data) : pySplitNl (joinNl xs) = xs := by
  show (splitOnCh '\n' (joinNlCh (xs.map String.data))).map String.mk = xs
  rw [splitOnCh_joinNlCh (xs.map String.data) (by simpa using hne) (by
    intro l hl
    obtain ⟨x, hx, hxl⟩ := List.mem_map.mp hl
    rw [← hxl]
    exact hfree x hx)]
  exact map_mk_data xs

lemma pySplitNl_pieces_free (s : String) :
    ∀ x ∈ pySplitNl s, '\n' ∉ x.data := by
  intro x hx
  obtain ⟨l, hl, hxl⟩ := List.mem_map.mp hx
  rw [← hxl]
  exact splitOnCh_pieces_no_sep '\n' s.data l hl

lemma pySplitNl_getLast_empty (s : String) (h : strEndsWithNl s = true) :
    (pySplitNl s).getLast? = some "" := by
  have h1 : s.data.getLast? = some '\n' := by
    simpa [strEndsWithNl] using h
  show ((splitOnCh '\n' s.data).map String.mk).getLast? = some ""
  rw [getLast_map_eq, splitOnCh_getLast_sep '\n' s.data h1]
  rfl

lemma joinNlCh_getLast_nl :
    ∀ xs : List (List Char), 2 ≤ xs.length → xs.getLast? = some [] →
      (joinNlCh xs).getLast? = some '\n' := by
  intro xs
  induction xs with
  | nil => intro h2 _; simp at h2
  | cons x ys ih =>
    intro h2 hl
    cases ys with
    | nil => simp at h2
    | cons y zs =>
      cases zs with
      | nil =>
        have hy : y = [] := by
          rw [List.getLast?_cons_cons] at hl
          simpa [List.getLast?] using hl
        rw [hy]
        show (x ++ '\n' :: joinNlCh [[]]).getLast? = some '\n'
        rw [joinNlCh]
        show (x ++ ['\n']).getLast? = some '\n'
        exact List.getLast?_concat _
      | cons z ws =>
        rw [joinNlCh]
        have hih : (joinNlCh (y :: z :: ws)).getLast? = some '\n' := by
          apply ih
          · simp
          · rw [List.getLast?_cons_cons] at hl
            exact hl
        have hne : joinNlCh (y :: z :: ws) ≠ [] := by
          intro hnil
          rw [hnil] at hih
          simp [List.getLast?] at hih
        rw [List.getLast?_append]
        cases hj : joinNlCh (y :: z :: ws) with
        | nil => exact absurd hj hne
        | cons a as =>
          rw [hj] at hih
          rw [List.getLast?_cons_cons, hih]
          rfl

lemma joinNl_endsWithNl (xs : List String) (h2 : 2 ≤ xs.length)
    (hl : xs.getLast? = some "") : strEndsWithNl (joinNl xs) = true := by
  show decide ((joinNlCh (xs.map String.data)).getLast? = some '\n') = true
  rw [joinNlCh_getLast_nl (xs.map String.data) (by simpa using h2) (by
    rw [getLast_map_eq, hl]; rfl)]
  rfl

lemma splitOnCh_head_startsWith (sep : Char) :
    ∀ (a b : List Char), sep ∉ a →
      ∃ l0 ls, splitOnCh sep (a ++ b) = l0 :: ls ∧ listStartsWithCh l0 a = true := by
  intro a
  induction a with
  | nil =>
    intro b _
    cases h : splitOnCh sep b with
    | nil => exact absurd h (splitOnCh_ne_nil sep b)
    | cons l0 ls =>
      exact ⟨l0, ls, by rw [List.nil_append, h], by cases l0 <;> rfl⟩
  | cons c a' ih =>
    intro b h
    have hc : c ≠ sep := fun hcs => h (by rw [hcs]; exact List.mem_cons_self _ _)
    obtain ⟨l0, ls, h2, h3⟩ := ih b (fun hm => h (List.mem_cons_of_mem _ hm))
    refine ⟨c :: l0, ls, ?_, ?_⟩
    · rw [List.cons_append]
      exact splitOnCh_cons_ne sep c (a' ++ b) hc l0 ls h2
    · simp [listStartsWithCh, h3]

lemma to_org_data (e : JournalEntry) :
    ∃ r, (JournalEntry.to_org e).data = '*' :: '*' :: ' ' :: r := by
  rw [JournalEntry.to_org]
  split
  · exact ⟨_, rfl⟩
  · exact ⟨_, rfl⟩

lemma pySplitNl_to_org_head (e : JournalEntry) :
    ∀ x, (pySplitNl (JournalEntry.to_org e)).head? = some x →
      isJournalBoundary x = true := by
  intro x hx
  obtain ⟨r, hr⟩ := to_org_data e
  obtain ⟨l0, ls, heq, hsw⟩ :=
    splitOnCh_head_startsWith '\n' ['*', '*', ' '] r (by decide)
  rw [pySplitNl, hr] at hx
  rw [show ('*' :: '*' :: ' ' :: r) = ['*', '*', ' '] ++ r from rfl, heq] at hx
  simp only [List.map_cons, List.head?_cons, Option.some.injEq] at hx
  rw [← hx, isJournalBoundary]
  have : strStartsWith (String.mk l0) "** " = true := hsw
  rw [this]
  rfl

lemma scan_fuel_eq (fd : String) :
    ∀ (f1 f2 i : Nat) (ls : List String), ls.length ≤ f1 → ls.length ≤ f2 →
      scan_journal_lines fd f1 i ls = scan_journal_lines fd f2 i ls := by
  intro f1
  induction f1 with
  | zero =>
    intro f2 i ls h1 _
    have hls : ls = [] := List.eq_nil_of_length_eq_zero (Nat.le_zero.mp h1)
    subst hls
    cases f2 <;> rfl
  | succ f ih =>
    intro f2 i ls h1 h2
    cases ls with
    | nil => cases f2 <;> rfl
    | cons l rest =>
      cases f2 with
      | zero => simp at h2
      | succ g =>
        have hr1 : rest.length ≤ f := by simpa using h1
        have hr2 : rest.length ≤ g := by simpa using h2
        simp only [scan_journal_lines]
        by_cases hsw : strStartsWith l "** " = true
        · rw [if_pos hsw, if_pos hsw]
          cases hp : parse_entry_heading l with
          | none =>
            simp only
            exact ih g (i + 1) rest hr1 hr2
          | some tht =>
            obtain ⟨t, h, tg⟩ := tht
            simp only
            refine congrArg _ (ih g _ _ ?_ ?_)
            · exact Nat.le_trans (dropWhile_length_le _ rest) hr1
            · exact Nat.le_trans (dropWhile_length_le _ rest) hr2
        · rw [if_neg hsw, if_neg hsw]
          exact ih g (i + 1) rest hr1 hr2

lemma scan_index_views (fd : String) :
    ∀ (fuel i j : Nat) (ls : List String),
      (scan_journal_lines fd fuel i ls).map JournalEntry.view =
        (scan_journal_lines fd fuel j ls).map JournalEntry.view := by
  intro fuel
  induction fuel with
  | zero => intro i j ls; rfl
  | succ f ih =>
    intro i j ls
    cases ls with
    | nil => rfl
    | cons l rest =>
      simp only [scan_journal_lines]
      by_cases hsw : strStartsWith l "** " = true
      · rw [if_pos hsw, if_pos hsw]
        cases hp : parse_entry_heading l with
        | none =>
          simp only
          exact ih (i + 1) (j + 1) rest
        | some tht =>
          obtain ⟨t, h, tg⟩ := tht
          simp only [List.map_cons]
          exact congrArg _ (ih _ _ _)
      · rw [if_neg hsw, if_neg hsw]
        exact ih (i + 1) (j + 1) rest

lemma scan_append (fd : String) :
    ∀ (fuel : Nat) (a b : List String) (i : Nat),
      a.length + b.length ≤ fuel →
      (∀ x, b.head? = some x → isJournalBoundary x = true) →
      scan_journal_lines fd fuel i (a ++ b) =
        scan_journal_lines fd fuel i a ++
          scan_journal_lines fd fuel (i + a.length) b := by
  intro fuel
  induction fuel with
  | zero =>
    intro a b i hlen _
    have ha : a = [] := List.eq_nil_of_length_eq_zero (by omega)
    have hb : b = [] := List.eq_nil_of_length_eq_zero (by omega)
    subst ha; subst hb; rfl
  | succ f ih =>
    intro a b i hlen hb
    cases a with
    | nil =>
      simp only [List.nil_append, List.length_nil, Nat.add_zero]
      rfl
    | cons l a' =>
      have hblen : b.length ≤ f := by
        simp only [List.length_cons] at hlen; omega
      have halen : a'.length + b.length ≤ f := by
        simp only [List.length_cons] at hlen; omega
      rw [List.cons_append]
      simp only [scan_journal_lines]
      by_cases hsw : strStartsWith l "** " = true
      · rw [if_pos hsw, if_pos hsw]
        cases hp : parse_entry_heading l with
        | none =>
          simp only
          rw [ih a' b (i + 1) halen hb]
          refine congrArg _ ?_
          have hidx : i + 1 + a'.length = i + (l :: a').length := by
            simp only [List.length_cons]; omega
          rw [hidx]
          apply scan_fuel_eq
          · exact hblen
          · exact Nat.le_succ_of_le hblen
        | some tht =>
          obtain ⟨t, h, tg⟩ := tht
          simp only
          obtain ⟨htk, hdr⟩ :=
            takeWhile_append_head (fun x => !isJournalBoundary x) a' b (by
              intro x hx
              show (!isJournalBoundary x) = false
              rw [hb x hx]
              rfl)
          rw [htk, hdr, ih (a'.dropWhile (fun x => !isJournalBoundary x)) b _
            (by
              have := dropWhile_length_le (fun x => !isJournalBoundary x) a'
              omega) hb, List.cons_append]
          refine congrArg _ (congrArg _ ?_)
          have hsum : (a'.takeWhile (fun x => !isJournalBoundary x)).length +
              (a'.dropWhile (fun x => !isJournalBoundary x)).length = a'.length := by
            have := congrArg List.length
              (List.takeWhile_append_dropWhile (fun x => !isJournalBoundary x) a')
            rw [List.length_append] at this
            exact this
          have hidx : i + 1 + (a'.takeWhile (fun x => !isJournalBoundary x)).length +
              (a'.dropWhile (fun x => !isJournalBoundary x)).length =
              i + (l :: a').length := by
            simp only [List.length_cons]
            omega
          rw [hidx]
          apply scan_fuel_eq
          · exact hblen
          · exact Nat.le_succ_of_le hblen
      · rw [if_neg hsw, if_neg hsw]
        rw [ih a' b (i + 1) halen hb]
        refine congrArg _ ?_
        have hidx : i + 1 + a'.length = i + (l :: a').length := by
          simp only [List.length_cons]; omega
        rw [hidx]
        apply scan_fuel_eq
        · exact hblen
        · exact Nat.le_succ_of_le hblen

lemma scan_single (fd : String) (fuel i : Nat) (l : String) (cs : List String)
    (t h : String) (tg : List String)
    (hfuel : 1 ≤ fuel) (hsw : strStartsWith l "** " = true)
    (hp : parse_entry_heading l = some (t, h, tg))
    (hc : ∀ x ∈ cs, isJournalBoundary x = false) :
    scan_journal_lines fd fuel i (l :: cs) =
      [{ time := t, headline := h, tags := tg, content := joinNl cs,
         line_number := i, file_date := fd }] := by
  cases fuel with
  | zero => simp at hfuel
  | succ f =>
    simp only [scan_journal_lines]
    rw [if_pos hsw, hp]
    simp only
    have htk : cs.takeWhile (fun x => !isJournalBoundary x) = cs :=
      takeWhile_of_all _ cs (fun x hx => by rw [hc x hx]; rfl)
    have hdr : cs.dropWhile (fun x => !isJournalBoundary x) = [] := by
      have := congrArg List.length
        (List.takeWhile_append_dropWhile (fun x => !isJournalBoundary x) cs)
      rw [List.length_append, htk] at this
      have hz : (cs.dropWhile (fun x => !isJournalBoundary x)).length = 0 := by omega
      exact List.eq_nil_of_length_eq_zero hz
    rw [htk, hdr]
    cases f <;> rfl

lemma scan_views_append (fd : String) (a b : List String)
    (hb : ∀ x, b.head? = some x → isJournalBoundary x = true) :
    scan_views fd (a ++ b) = scan_views fd a ++ scan_views fd b := by
  show (scan_journal_lines fd (a ++ b).length 0 (a ++ b)).map JournalEntry.view = _
  rw [scan_append fd (a ++ b).length a b 0 (by rw [List.length_append]) hb,
    List.map_append]
  refine congrArg₂ _ ?_ ?_
  · show _ = (scan_journal_lines fd a.length 0 a).map JournalEntry.view
    rw [scan_fuel_eq fd (a ++ b).length a.length 0 a
      (by rw [List.length_append]; omega) (Nat.le_refl _)]
  · show _ = (scan_journal_lines fd b.length 0 b).map JournalEntry.view
    rw [scan_fuel_eq fd (a ++ b).length b.length (0 + a.length) b
      (by rw [List.length_append]; omega) (Nat.le_refl _)]
    exact scan_index_views fd b.length (0 + a.length) 0 b

lemma scan_views_entry (fd : String) (l : String) (cs : List String)
    (t h : String) (tg : List String)
    (hsw : strStartsWith l "** " = true)
    (hp : parse_entry_heading l = some (t, h, tg))
    (hc : ∀ x ∈ cs, isJournalBoundary x = false) :
    scan_views fd (l :: cs) = [(t, h, tg, joinNl cs)] := by
  show (scan_journal_lines fd (l :: cs).length 0 (l :: cs)).map JournalEntry.view = _
  rw [scan_single fd (l :: cs).length 0 l cs t h tg (by simp) hsw hp hc]
  rfl

lemma head_boundary_append (a b : List String) (ha : a ≠ [])
    (hab : ∀ x, a.head? = some x → isJournalBoundary x = true) :
    ∀ x, (a ++ b).head? = some x → isJournalBoundary x = true := by
  intro x hx
  cases a with
  | nil => exact absurd rfl ha
  | cons c cs =>
    rw [List.cons_append, List.head?_cons] at hx
    exact hab x hx

lemma pySplitNl_append_newline (s : String) :
    pySplitNl (s ++ "\n") = pySplitNl s ++ [""] := by
  show (splitOnCh '\n' (s ++ "\n").data).map String.mk = _
  rw [String.data_append]
  rw [show ("\n" : String).data = ['\n'] from rfl, splitOnCh_append_sep,
    List.map_append]
  rfl

/-- C5 (amended): journal update on the entry whose heading sits at
`line_number` preserves every other entry.  Amendment: the file must end
with a newline — `write_file` appends one otherwise, which (as
`c5_counterexample` shows) changes the content of the last untouched
entry — and the heading line must start with `"** "` (the parser requires
`"** "`-prefixed headings anyway).  Under those conditions the views
(time, headline, tags, content) of the entries scanned from the lines
before the heading and from the lines at and after the end boundary of
the updated entry are unchanged, in order: the old file parses to exactly
prefix entries, the old entry, and suffix entries, and the new file to
the same prefix entries, some replacement slice, and the same suffix
entries. -/
theorem c5_journal_update_frame
    (file_content : String) (line_number : Nat)
    (time_str headline content : String) (tags : List String) (file_date : String)
    (old_entry new_entry : JournalEntry) (new_content : String) (l : String)
    (hl : (pySplitNl file_content)[line_number]? = some l)
    (hsw : strStartsWith l "** " = true)
    (hend : strEndsWithNl file_content = true)
    (hup : update_journal_entry file_content line_number time_str headline content
        tags file_date = .ok (old_entry, new_entry, new_content)) :
    ∃ mid,
      entry_views file_date file_content =
        scan_views file_date ((pySplitNl file_content).take line_number) ++
          old_entry.view ::
            scan_views file_date
              (((pySplitNl file_content).drop (line_number + 1)).dropWhile
                (fun x => !isJournalBoundary x)) ∧
      entry_views file_date new_content =
        scan_views file_date ((pySplitNl file_content).take line_number) ++
          mid ++
            scan_views file_date
              (((pySplitNl file_content).drop (line_number + 1)).dropWhile
                (fun x => !isJournalBoundary x)) := by
  simp only [update_journal_entry, hl] at hup
  cases hp2 : parse_entry_heading l with
  | none =>
    simp only [hp2] at hup
    cases hup
  | some tht =>
    obtain ⟨t, h0, tg⟩ := tht
    simp only [hp2, Except.ok.injEq, Prod.mk.injEq] at hup
    obtain ⟨hOld, hNewE, hCont⟩ := hup
    -- boundary and membership facts about the three regions
    have hb_dw : ∀ x,
        (((pySplitNl file_content).drop (line_number + 1)).dropWhile
          (fun x => !isJournalBoundary x)).head? = some x →
        isJournalBoundary x = true := by
      intro x hx
      have := head_dropWhile_pred (fun x => !isJournalBoundary x)
        ((pySplitNl file_content).drop (line_number + 1)) x hx
      simpa using this
    have hct : ∀ x ∈ ((pySplitNl file_content).drop (line_number + 1)).takeWhile
        (fun x => !isJournalBoundary x), isJournalBoundary x = false := by
      intro x hx
      have := mem_takeWhile_pred (fun x => !isJournalBoundary x)
        ((pySplitNl file_content).drop (line_number + 1)) x hx
      simpa using this
    have hb_mid : ∀ x,
        ((l :: ((pySplitNl file_content).drop (line_number + 1)).takeWhile
            (fun x => !isJournalBoundary x)) ++
          ((pySplitNl file_content).drop (line_number + 1)).dropWhile
            (fun x => !isJournalBoundary x)).head? = some x →
        isJournalBoundary x = true := by
      intro x hx
      rw [List.cons_append, List.head?_cons, Option.some.injEq] at hx
      rw [← hx, isJournalBoundary, hsw]
      rfl
    -- the full line list decomposes around the updated entry
    have hdecomp : pySplitNl file_content =
        (pySplitNl file_content).take line_number ++
          ((l :: ((pySplitNl file_content).drop (line_number + 1)).takeWhile
              (fun x => !isJournalBoundary x)) ++
            ((pySplitNl file_content).drop (line_number + 1)).dropWhile
              (fun x => !isJournalBoundary x)) := by
      have h1 := (List.take_append_drop line_number (pySplitNl file_content)).symm
      have h2 := drop_cons_of_getElem (pySplitNl file_content) line_number l hl
      have h3 := (List.takeWhile_append_dropWhile (fun x => !isJournalBoundary x)
        ((pySplitNl file_content).drop (line_number + 1))).symm
      rw [List.cons_append, ← h3, ← h2]
      exact h1
    -- the old file's views split as prefix ++ old entry ++ suffix
    have hviews_old :
        entry_views file_date file_content =
          scan_views file_date ((pySplitNl file_content).take line_number) ++
            old_entry.view ::
              scan_views file_date
                (((pySplitNl file_content).drop (line_number + 1)).dropWhile
                  (fun x => !isJournalBoundary x)) := by
      have hv : old_entry.view =
          (t, h0, tg,
            joinNl (((pySplitNl file_content).drop (line_number + 1)).takeWhile
              (fun x => !isJournalBoundary x))) := by
        rw [← hOld]
        rfl
      calc entry_views file_date file_content
          = scan_views file_date (pySplitNl file_content) := rfl
        _ = scan_views file_date
              ((pySplitNl file_content).take line_number ++
                ((l :: ((pySplitNl file_content).drop (line_number + 1)).takeWhile
                    (fun x => !isJournalBoundary x)) ++
                  ((pySplitNl file_content).drop (line_number + 1)).dropWhile
                    (fun x => !isJournalBoundary x))) :=
            congrArg (scan_views file_date) hdecomp
        _ = _ := by
            rw [scan_views_append file_date _ _ hb_mid,
              scan_views_append file_date _ _ hb_dw,
              scan_views_entry file_date l _ t h0 tg hsw hp2 hct,
              List.singleton_append, hv]
    -- the entry-end drop in the new line list is the dropWhile suffix
    have hdw2 : (pySplitNl file_content).drop (line_number + 1 +
        (((pySplitNl file_content).drop (line_number + 1)).takeWhile
          (fun x => !isJournalBoundary x)).length) =
        ((pySplitNl file_content).drop (line_number + 1)).dropWhile
          (fun x => !isJournalBoundary x) := by
      have h1 : (pySplitNl file_content).drop (line_number + 1 +
          (((pySplitNl file_content).drop (line_number + 1)).takeWhile
            (fun x => !isJournalBoundary x)).length) =
          ((pySplitNl file_content).drop (line_number + 1)).drop
            ((((pySplitNl file_content).drop (line_number + 1)).takeWhile
              (fun x => !isJournalBoundary x)).length) := by
        rw [List.drop_drop]
      rw [h1]
      have h2 : ((pySplitNl file_content).drop (line_number + 1)).drop
          ((((pySplitNl file_content).drop (line_number + 1)).takeWhile
            (fun x => !isJournalBoundary x)).length) =
          (((pySplitNl file_content).drop (line_number + 1)).takeWhile
              (fun x => !isJournalBoundary x) ++
            ((pySplitNl file_content).drop (line_number + 1)).dropWhile
              (fun x => !isJournalBoundary x)).drop
            ((((pySplitNl file_content).drop (line_number + 1)).takeWhile
              (fun x => !isJournalBoundary x)).length) := by
        rw [List.takeWhile_append_dropWhile]
      rw [h2]
      exact List.drop_left _ _
    rw [hdw2, hNewE] at hCont
    -- head of the serialized replacement is a boundary line
    have hNLhead := pySplitNl_to_org_head new_entry
    have hNLne : pySplitNl new_entry.to_org ≠ [] := by
      intro hnil
      have : splitOnCh '\n' (JournalEntry.to_org new_entry).data = [] := by
        have := congrArg List.length hnil
        simp only [pySplitNl, List.length_map, List.length_nil] at this
        exact List.eq_nil_of_length_eq_zero this
      exact splitOnCh_ne_nil '\n' _ this
    -- newline-freeness of every piece of the new line list
    have hfree : ∀ x ∈ (pySplitNl file_content).take line_number ++
        pySplitNl new_entry.to_org ++
        ((pySplitNl file_content).drop (line_number + 1)).dropWhile
          (fun x => !isJournalBoundary x), '\n' ∉ x.data := by
      intro x hx
      rcases List.mem_append.mp hx with hx1 | hx3
      · rcases List.mem_append.mp hx1 with hx1 | hx2
        · exact pySplitNl_pieces_free file_content x (List.take_subset _ _ hx1)
        · exact pySplitNl_pieces_free new_entry.to_org x hx2
      · exact pySplitNl_pieces_free file_content x
          (List.drop_subset (line_number + 1) (pySplitNl file_content)
            ((List.dropWhile_sublist _).subset hx3))
    by_cases hdwe : ((pySplitNl file_content).drop (line_number + 1)).dropWhile
        (fun x => !isJournalBoundary x) = []
    · -- the updated entry runs to the end of the file
      rw [hdwe, List.append_nil] at hCont
      have hfree2 : ∀ x ∈ (pySplitNl file_content).take line_number ++
          pySplitNl new_entry.to_org, '\n' ∉ x.data := by
        intro x hx
        refine hfree x ?_
        rw [hdwe, List.append_nil]
        exact hx
      have hne2 : (pySplitNl file_content).take line_number ++
          pySplitNl new_entry.to_org ≠ [] := by
        intro hnil
        exact hNLne (List.append_eq_nil.mp hnil).2
      by_cases hwf : strEndsWithNl (joinNl
          ((pySplitNl file_content).take line_number ++
            pySplitNl new_entry.to_org)) = true
      · rw [write_file_content, if_pos hwf] at hCont
        refine ⟨scan_views file_date (pySplitNl new_entry.to_org),
          ⟨hviews_old, ?_⟩⟩
        rw [hdwe, show scan_views file_date ([] : List String) = [] from rfl,
          List.append_nil]
        calc entry_views file_date new_content
            = scan_views file_date (pySplitNl new_content) := rfl
          _ = scan_views file_date
                ((pySplitNl file_content).take line_number ++
                  pySplitNl new_entry.to_org) := by
              rw [← hCont, pySplitNl_joinNl _ hne2 hfree2]
          _ = _ := scan_views_append file_date _ _ hNLhead
      · rw [write_file_content, if_neg hwf] at hCont
        refine ⟨scan_views file_date (pySplitNl new_entry.to_org ++ [""]),
          ⟨hviews_old, ?_⟩⟩
        rw [hdwe, show scan_views file_date ([] : List String) = [] from rfl,
          List.append_nil]
        calc entry_views file_date new_content
            = scan_views file_date (pySplitNl new_content) := rfl
          _ = scan_views file_date
                (((pySplitNl file_content).take line_number ++
                  pySplitNl new_entry.to_org) ++ [""]) := by
              rw [← hCont, pySplitNl_append_newline, pySplitNl_joinNl _ hne2 hfree2]
          _ = _ := by
              rw [List.append_assoc]
              exact scan_views_append file_date _ _
                (head_boundary_append (pySplitNl new_entry.to_org) [""] hNLne
                  hNLhead)
    · -- a later boundary line survives; the trailing empty line sits in it
      have hdw_last : (((pySplitNl file_content).drop (line_number + 1)).dropWhile
          (fun x => !isJournalBoundary x)).getLast? = some "" := by
        have hafter_ne : (pySplitNl file_content).drop (line_number + 1) ≠ [] := by
          intro hnil
          apply hdwe
          rw [hnil]
          rfl
        have h1 : (((pySplitNl file_content).drop (line_number + 1)).dropWhile
            (fun x => !isJournalBoundary x)).getLast? =
            ((pySplitNl file_content).drop (line_number + 1)).getLast? := by
          obtain ⟨y, hy⟩ : ∃ y,
              (((pySplitNl file_content).drop (line_number + 1)).dropWhile
                (fun x => !isJournalBoundary x)).getLast? = some y := by
            cases hj : (((pySplitNl file_content).drop (line_number + 1)).dropWhile
                (fun x => !isJournalBoundary x)) with
            | nil => exact absurd hj hdwe
            | cons a as =>
              exact ⟨(a :: as).getLast (by simp), List.getLast?_eq_getLast _ _⟩
          conv_rhs => rw [← List.takeWhile_append_dropWhile
            (fun x => !isJournalBoundary x)
            ((pySplitNl file_content).drop (line_number + 1))]
          rw [List.getLast?_append, hy]
          rfl
        rw [h1, getLast_drop_eq _ _ hafter_ne]
        exact pySplitNl_getLast_empty file_content hend
      have hlen2 : 2 ≤ ((pySplitNl file_content).take line_number ++
          pySplitNl new_entry.to_org ++
          ((pySplitNl file_content).drop (line_number + 1)).dropWhile
            (fun x => !isJournalBoundary x)).length := by
        have hp1 := List.length_pos.mpr hNLne
        have hp2b := List.length_pos.mpr hdwe
        simp only [List.length_append]
        omega
      have hlast2 : ((pySplitNl file_content).take line_number ++
          pySplitNl new_entry.to_org ++
          ((pySplitNl file_content).drop (line_number + 1)).dropWhile
            (fun x => !isJournalBoundary x)).getLast? = some "" := by
        rw [List.getLast?_append, hdw_last]
        rfl
      have hwf : strEndsWithNl (joinNl
          ((pySplitNl file_content).take line_number ++
            pySplitNl new_entry.to_org ++
            ((pySplitNl file_content).drop (line_number + 1)).dropWhile
              (fun x => !isJournalBoundary x))) = true :=
        joinNl_endsWithNl _ hlen2 hlast2
      rw [write_file_content, if_pos hwf] at hCont
      have hne3 : (pySplitNl file_content).take line_number ++
          pySplitNl new_entry.to_org ++
          ((pySplitNl file_content).drop (line_number + 1)).dropWhile
            (fun x => !isJournalBoundary x) ≠ [] := by
        intro hnil
        exact hdwe (List.append_eq_nil.mp hnil).2
      refine ⟨scan_views file_date (pySplitNl new_entry.to_org),
        ⟨hviews_old, ?_⟩⟩
      calc entry_views file_date new_content
          = scan_views file_date (pySplitNl new_content) := rfl
        _ = scan_views file_date
              ((pySplitNl file_content).take line_number ++
                pySplitNl new_entry.to_org ++
                ((pySplitNl file_content).drop (line_number + 1)).dropWhile
                  (fun x => !isJournalBoundary x)) := by
            rw [← hCont, pySplitNl_joinNl _ hne3 hfree]
        _ = _ := by
            rw [List.append_assoc,
              scan_views_append file_date _ _
                (head_boundary_append (pySplitNl new_entry.to_org) _ hNLne hNLhead),
              scan_views_append file_date _ _ hb_dw, ← List.append_assoc]

/-- C5, counterexample to the unconditional claim: `c5_bad_content` lacks a
trailing newline.  Updating the entry at line 2 (`10:00 First`) splices
correctly, but `write_file` appends a newline to the whole file, and on
re-parse the *other* entry's content changes from `"body2"` to
`"body2\n"` — it is not byte-identical. -/
theorem c5_counterexample :
    entry_views "20250101" c5_bad_content =
      [("10:00", "First", [], "body1\n"), ("11:00", "Second", [], "body2")] ∧
    update_journal_entry c5_bad_content 2 "10:30" "First" "newbody" [] "20250101" =
      .ok ({ time := "10:00", headline := "First", tags := [], content := "body1\n",
             line_number := 2, file_date := "20250101" },
           { time := "10:30", headline := "First", tags := [], content := "newbody",
             line_number := 2, file_date := "20250101" },
           "* 2025-01-01\n\n** 10:30 First\nnewbody\n** 11:00 Second\nbody2\n") ∧
    entry_views "20250101"
        "* 2025-01-01\n\n** 10:30 First\nnewbody\n** 11:00 Second\nbody2\n" =
      [("10:30", "First", [], "newbody"), ("11:00", "Second", [], "body2\n")] ∧
    ("body2" : String) ≠ "body2\n" :=
  ⟨rfl, rfl, rfl, by decide⟩

/-- C5, witness: on `c5_good_content` (the same file ending in a newline)
the frame theorem applies with all hypotheses discharged concretely, and
the untouched `11:00 Second` entry's view survives the update of the
`10:00 First` entry verbatim. -/
theorem c5_witness :
    ∃ mid,
      entry_views "20250101" c5_good_content =
        ("10:00", "First", [], "body1\n") ::
          [("11:00", "Second", [], "body2\n")] ∧
      entry_views "20250101"
          "* 2025-01-01\n\n** 10:30 First\nnewbody\n** 11:00 Second\nbody2\n" =
        mid ++ [("11:00", "Second", [], "body2\n")] :=
  c5_journal_update_frame c5_good_content 2 "10:30" "First" "newbody" []
    "20250101"
    { time := "10:00", headline := "First", tags := [], content := "body1\n",
      line_number := 2, file_date := "20250101" }
    { time := "10:30", headline := "First", tags := [], content := "newbody",
      line_number := 2, file_date := "20250101" }
    "* 2025-01-01\n\n** 10:30 First\nnewbody\n** 11:00 Second\nbody2\n"
    "** 10:00 First" rfl rfl rfl rfl
